import Mathlib

/-!
Shallow embedding of the folder-state reconciliation engine of Plex_Updater
(src/main.py, src/media_scraper.py, src/telegram_notifier.py).

Modelling conventions:
* JSON values produced by `json.load` / consumed by `json.dump` are the
  inductive `Json`; a Python dict is an association list in insertion order
  (keys unique in every dict the program builds).
* A Python `set` of folder names is modelled as its canonical sorted
  duplicate-free list (`mkSet`).  This is observationally exact for this
  program: sets are consumed only through membership, `len`, set
  difference, and `sorted(list(...))` (src/main.py lines 97, 190, 253) -
  never through raw iteration order.  String order is code-point
  lexicographic (`strLe`), matching Python's `sorted` on `str`.
* Opening+parsing a persisted file has three outcomes (`ParsedFile`):
  the file is missing, it fails to parse (`json.JSONDecodeError` or an IO
  error), or it parses to a `Json` value.
* Filesystem and network collaborators (`os.listdir`, the OMDb lookup,
  poster download, `os.remove`, Telegram sends) are oracle functions
  supplied as inputs; timestamps (`datetime.now().isoformat()`) are a
  string parameter of each scan.
* Python `\d` / `\s` are modelled over the ASCII range, which covers every
  folder name the regexes in `media_scraper.parse_folder_name` target.
-/

namespace PlexUpdater

/-! ### Python sets of strings as canonical sorted lists -/

/-- Code-point lexicographic order on character lists: how Python
compares two `str` values. -/
def charListLe : List Char → List Char → Bool
  | [], _ => true
  | _ :: _, [] => false
  | c :: cs, d :: ds => if c = d then charListLe cs ds else decide (c < d)

/-- Python's `<=` on strings. -/
def strLe (a b : String) : Bool :=
  charListLe a.toList b.toList

/-- Insert into a sorted list (ascending by `strLe`). -/
def insertLe (x : String) : List String → List String
  | [] => [x]
  | y :: ys => if strLe x y then x :: y :: ys else y :: insertLe x ys

/-- `sorted(...)` on a list of strings (insertion sort; Python's sort on
distinct strings produces the same list as any correct sort). -/
def sortStrings : List String → List String
  | [] => []
  | x :: xs => insertLe x (sortStrings xs)

/-- `set(...)`: drop duplicates and keep the canonical sorted order. -/
def mkSet (l : List String) : List String :=
  sortStrings l.dedup

/-- Set difference `a - b` of Python sets. -/
def setDiff (a b : List String) : List String :=
  a.filter (fun x => !b.contains x)

/-! ### JSON values and persisted files -/

/-- JSON values, as loaded by `json.load` and written by `json.dump`. -/
inductive Json where
  | null
  | bool (b : Bool)
  | num (n : Int)
  | str (s : String)
  | arr (elems : List Json)
  | obj (fields : List (String × Json))

/-- Outcome of opening and parsing one persisted state file. -/
inductive ParsedFile where
  | missing
  | unparseable
  | parsed (j : Json)

/-- Python dict lookup `d.get(k)` on an insertion-ordered association list. -/
def dictFind {α : Type} : List (String × α) → String → Option α
  | [], _ => none
  | p :: rest, k => if p.1 = k then some p.2 else dictFind rest k

/-- Python dict assignment `d[k] = v`: replace in place if the key exists,
otherwise append (dicts preserve insertion order). -/
def dictSet {α : Type} : List (String × α) → String → α → List (String × α)
  | [], k, v => [(k, v)]
  | p :: rest, k, v => if p.1 = k then (k, v) :: rest else p :: dictSet rest k v

/-- Python `del d[k]`. -/
def dictErase {α : Type} : List (String × α) → String → List (String × α)
  | [], _ => []
  | p :: rest, k => if p.1 = k then dictErase rest k else p :: dictErase rest k

/-- In-memory value held in the loaded folder state: a set of subfolder
names for a monitored path, or the raw JSON kept for the reserved
`"last_updated"` key (src/main.py lines 72-77). -/
inductive PVal where
  | pset (s : List String)
  | raw (j : Json)

/-- Extract the strings of a loaded JSON array.  The program only ever
writes arrays of folder-name strings here; any other shape is sent to
the loader's blanket `except` branch. -/
def asStringList : List Json → Option (List String)
  | [] => some []
  | Json.str s :: rest => (asStringList rest).map (s :: ·)
  | _ => none

/-- One iteration of the loading loop in `read_folder_state`
(src/main.py lines 73-77): the reserved key keeps its raw value, every
other key's array becomes a set. -/
def convertEntry : String × Json → Option (String × PVal)
  | (path, v) =>
    if path = "last_updated" then some (path, PVal.raw v)
    else
      match v with
      | Json.arr elems =>
        (asStringList elems).map (fun names => (path, PVal.pset (mkSet names)))
      | _ => none

/-- The whole loading loop of `read_folder_state`; any failure anywhere
aborts the load (the surrounding `except` returns the empty state). -/
def convertFolderState : List (String × Json) → Option (List (String × PVal))
  | [] => some []
  | p :: rest =>
    match convertEntry p, convertFolderState rest with
    | some q, some qs => some (q :: qs)
    | _, _ => none

/-- `read_folder_state` (src/main.py lines 60-85): missing file and
parse failure both yield the empty dict; a parsed non-object hits the
blanket `except` (`.items()` fails) and also yields the empty dict.
The function is total: no error path escapes. -/
def read_folder_state : ParsedFile → List (String × PVal)
  | ParsedFile.missing => []
  | ParsedFile.unparseable => []
  | ParsedFile.parsed (Json.obj fields) => (convertFolderState fields).getD []
  | ParsedFile.parsed _ => []

/-- Serialization step of `write_folder_state` (src/main.py lines 94-99):
sets become sorted lists, everything else is written as is. -/
def serializePVal : PVal → Json
  | PVal.pset s => Json.arr ((sortStrings s).map Json.str)
  | PVal.raw j => j

/-- `write_folder_state` (src/main.py lines 87-104).  Returns the
caller's dict as mutated by line 93 (`folder_state_dict["last_updated"]
= datetime.now().isoformat()`) together with the JSON object written to
disk. -/
def write_folder_state (folder_state : List (String × PVal)) (now : String) :
    List (String × PVal) × Json :=
  let mutated := dictSet folder_state "last_updated" (PVal.raw (Json.str now))
  (mutated, Json.obj (mutated.map (fun p => (p.1, serializePVal p.2))))

/-- `read_media_metadata` (src/media_scraper.py lines 45-64): missing
file and parse failure yield the empty dict; a parsed value is returned
as is (the only operation applied to it is `len`, which fails - and
falls to the blanket `except`, yielding the empty dict - exactly on
numbers, booleans and null).  Total: no error path escapes. -/
def read_media_metadata : ParsedFile → Json
  | ParsedFile.missing => Json.obj []
  | ParsedFile.unparseable => Json.obj []
  | ParsedFile.parsed j =>
    match j with
    | Json.obj fields => Json.obj fields
    | Json.arr elems => Json.arr elems
    | Json.str s => Json.str s
    | _ => Json.obj []

/-- `write_media_metadata` (src/media_scraper.py lines 66-75): a plain
`json.dump` of the cache dict. -/
def write_media_metadata (cache : List (String × Json)) : Json :=
  Json.obj cache

/-! ### Title/year extraction (`media_scraper.parse_folder_name`) -/

/-- Python `\s` over ASCII: the whitespace accepted by `str.strip` and by
the `\s*` in the first pattern. -/
def pyIsSpace (c : Char) : Bool :=
  c = ' ' || c = '\t' || c = '\n' || c = '\r' || c = '\x0b' || c = '\x0c'

/-- Python `str.strip()`: drop leading and trailing whitespace. -/
def pyStrip (cs : List Char) : List Char :=
  ((cs.dropWhile pyIsSpace).reverse.dropWhile pyIsSpace).reverse

/-- The regex engine's handling of a lazy anchored group `^(.*?)<rest>$`:
group-1 lengths are tried from shortest to longest; `.` does not match a
newline, so the group cannot extend across one.  Returns the matched
group 1 and the remainder consumed by `<rest>`. -/
def lazySplit (ok : List Char → Bool) (g1 : List Char) (s : List Char) :
    Option (List Char × List Char) :=
  if ok s then some (g1, s)
  else
    match s with
    | [] => none
    | c :: rest => if c = '\n' then none else lazySplit ok (g1 ++ [c]) rest

/-- Does a remainder have exactly the shape `\(\d{4}\)` ? -/
def isYearParen : List Char → Bool
  | ['(', d1, d2, d3, d4, ')'] => d1.isDigit && d2.isDigit && d3.isDigit && d4.isDigit
  | _ => false

/-- Remainder test for pattern 1, `\s*\((\d{4})\)$` (src/media_scraper.py
line 24): greedily strip whitespace, then demand the literal year group
ending the string. -/
def restParenYear (rest : List Char) : Bool :=
  isYearParen (rest.dropWhile pyIsSpace)

/-- Group 2 of pattern 1: the four digits inside the parentheses. -/
def yearOfParenRest (rest : List Char) : List Char :=
  ((rest.dropWhile pyIsSpace).drop 1).take 4

/-- The separator class `[._-]` of pattern 2 (src/media_scraper.py line 31). -/
def isSep (c : Char) : Bool :=
  c = '.' || c = '_' || c = '-'

/-- Remainder test for pattern 2, `[._-]?(\d{4})$`: four digits, possibly
preceded by one separator. -/
def restSepYear : List Char → Bool
  | [d1, d2, d3, d4] => d1.isDigit && d2.isDigit && d3.isDigit && d4.isDigit
  | [c, d1, d2, d3, d4] => isSep c && d1.isDigit && d2.isDigit && d3.isDigit && d4.isDigit
  | _ => false

/-- Group 2 of pattern 2: the trailing four digits. -/
def yearOfSepRest (rest : List Char) : List Char :=
  if rest.length = 5 then rest.drop 1 else rest

/-- `.replace('.', ' ').replace('-', ' ')` applied to group 1 of
pattern 2 (src/media_scraper.py line 33); underscores are kept. -/
def replaceSeps (c : Char) : Char :=
  if c = '.' || c = '-' then ' ' else c

/-- `parse_folder_name` (src/media_scraper.py lines 17-39) on the
character list of the folder name: try the `(YYYY)` pattern, then the
separator-year pattern, else return the stripped name with no year. -/
def parseFolderChars (cs : List Char) : List Char × Option (List Char) :=
  match lazySplit restParenYear [] cs with
  | some (g1, rest) => (pyStrip g1, some (yearOfParenRest rest))
  | none =>
    match lazySplit restSepYear [] cs with
    | some (g1, rest) => (pyStrip (g1.map replaceSeps), some (yearOfSepRest rest))
    | none => (pyStrip cs, none)

/-- `parse_folder_name` on Lean strings. -/
def parse_folder_name (folder_name : String) : String × Option String :=
  let r := parseFolderChars folder_name.toList
  (String.mk r.1, r.2.map String.mk)

/-! ### Poster files (`media_scraper.download_poster` / `delete_poster`) -/

/-- The character class `[\\/:*?"<>|]` replaced by `_` when deriving a
poster filename (src/media_scraper.py lines 146 and 183). -/
def isIllegalFileChar (c : Char) : Bool :=
  c = '\\' || c = '/' || c = ':' || c = '*' || c = '?' || c = '"' ||
  c = '<' || c = '>' || c = '|'

/-- `re.sub(r'[\\/:*?"<>|]', '_', folder_name)`. -/
def sanitizeFolderName (folder_name : String) : String :=
  String.mk (folder_name.toList.map (fun c => if isIllegalFileChar c then '_' else c))

/-- Python `filename.startswith(prefix)`, character by character. -/
def isPrefixList : List Char → List Char → Bool
  | [], _ => true
  | _ :: _, [] => false
  | c :: cs, d :: ds => c = d && isPrefixList cs ds

/-- `filename.startswith(sanitized_folder_name)` (src/media_scraper.py
line 191). -/
def strStartsWith (s pre : String) : Bool :=
  isPrefixList pre.toList s.toList

/-- `delete_poster` (src/media_scraper.py lines 178-200): every file in
the posters directory whose name starts with the sanitized folder name
is `os.remove`d; a failing removal is caught per file and leaves that
file in place.  `posters` is the directory listing, `removeFails` the
set of files whose removal raises. -/
def delete_poster (posters : List String) (removeFails : String → Bool)
    (folder_name : String) : List String :=
  posters.filter (fun f =>
    !(strStartsWith f (sanitizeFolderName folder_name)) || removeFails f)

/-! ### Media records and the OMDb fetch -/

/-- `metadata.get(k)` on a record (a JSON object); `.get` on anything
else never occurs in the modelled flows. -/
def jGet (j : Json) (k : String) : Option Json :=
  match j with
  | Json.obj fields => dictFind fields k
  | _ => none

/-- Python `k in metadata`. -/
def jHasKey (j : Json) (k : String) : Bool :=
  (jGet j k).isSome

/-- `metadata[k] = v` on a record.  The program only ever assigns into
objects; on any other value the assignment is modelled as the identity. -/
def jSet (j : Json) (k : String) (v : Json) : Json :=
  match j with
  | Json.obj fields => Json.obj (dictSet fields k v)
  | _ => j

/-- Python truthiness of a JSON-shaped value (`if metadata`,
`if metadata.get('poster_url')`). -/
def jTruthy : Json → Bool
  | Json.null => false
  | Json.bool b => b
  | Json.num n => n != 0
  | Json.str s => s ≠ ""
  | Json.arr elems => !elems.isEmpty
  | Json.obj fields => !fields.isEmpty

/-- Python `v == "N/A"` for a JSON-shaped value: true exactly on the
string `"N/A"`. -/
def jIsNA : Json → Bool
  | Json.str s => s = "N/A"
  | _ => false

/-- `fetch_media_metadata_from_omdb` (src/media_scraper.py lines 77-129).
`lookupOmdb` abstracts the network round trip: `none` for a missing API
key, a NotFound, or a request error; `some fields` for the extracted
provider fields of a successful response (lines 101-117).  On success
the record is completed with the `last_fetched` stamp (line 118). -/
def fetch_media_metadata_from_omdb
    (lookupOmdb : String → Option String → Option (List (String × Json)))
    (title : String) (year : Option String) (now : String) : Option Json :=
  (lookupOmdb title year).map
    (fun fields => Json.obj (fields ++ [("last_fetched", Json.str now)]))

/-! ### Per-folder enrichment (src/main.py lines 190-242) -/

/-- Result of handling one added folder: the cache afterwards, whether
the OMDb lookup was invoked, the record the message-building code sees
(`metadata` after lines 197-216), and whether a photo message was queued
(a poster was downloaded, line 219). -/
structure EnrichResult where
  cache : List (String × Json)
  fetchCalled : Bool
  usedRecord : Option Json
  posterQueued : Bool

/-- The poster step shared by both cache branches (src/main.py lines
208-216): download when the record is truthy with a usable poster URL;
on success store the local path back into the record and the cache. -/
def posterStep (downloadPoster : Json → String → Option String)
    (cache : List (String × Json)) (folder_name : String)
    (metadata : Option Json) (fetchCalled : Bool) : EnrichResult :=
  match metadata with
  | none => ⟨cache, fetchCalled, none, false⟩
  | some m =>
    match jGet m "poster_url" with
    | some url =>
      if jTruthy m && jTruthy url && !jIsNA url then
        match downloadPoster url folder_name with
        | some path =>
          let m' := jSet m "local_poster_path" (Json.str path)
          ⟨dictSet cache folder_name m', fetchCalled, some m', true⟩
        | none => ⟨cache, fetchCalled, some m, false⟩
      else ⟨cache, fetchCalled, some m, false⟩
    | none => ⟨cache, fetchCalled, some m, false⟩

/-- Handling of one added folder name (src/main.py lines 190-216): parse
the name, reuse a cached record that is truthy and carries a
`last_fetched` stamp, otherwise fetch from OMDb and - on success - stamp
`added_timestamp` (line 205) and store the record; then the poster step. -/
def enrichOne (lookupOmdb : String → Option String → Option (List (String × Json)))
    (downloadPoster : Json → String → Option String) (now : String)
    (cache : List (String × Json)) (folder_name : String) : EnrichResult :=
  let parsed := parse_folder_name folder_name
  let cached := dictFind cache folder_name
  if (cached.map (fun m => jTruthy m && jHasKey m "last_fetched")).getD false then
    posterStep downloadPoster cache folder_name cached false
  else
    match fetch_media_metadata_from_omdb lookupOmdb parsed.1 parsed.2 now with
    | some m =>
      let m' := jSet m "added_timestamp" (Json.str now)
      posterStep downloadPoster (dictSet cache folder_name m') folder_name (some m') true
    | none => posterStep downloadPoster cache folder_name none true

/-- Handling of the removed folders of one root (src/main.py lines
253-261): per folder, delete its poster files (best effort) and evict
its cache record.  Carries (posters, cache). -/
def processRemoved (removeFails : String → Bool)
    (st : List String × List (String × Json)) (folders : List String) :
    List String × List (String × Json) :=
  folders.foldl
    (fun st folder => (delete_poster st.1 removeFails folder, dictErase st.2 folder)) st

/-! ### The scan cycle (`main.periodic_folder_scan`) -/

/-- `old_folder_state.get(folder_path, set())` (src/main.py line 172).
`read_folder_state` stores a raw (non-set) value only under the reserved
`"last_updated"` key, which is never a monitored path in the modelled
states; the raw case is mapped to the empty set. -/
def snapGetOld (st : List (String × PVal)) (root : String) : List String :=
  match dictFind st root with
  | some (PVal.pset s) => s
  | some (PVal.raw _) => []
  | none => []

/-- Observable side effects of one scan, in order of occurrence. -/
inductive Effect where
  | sendPhoto (ok : Bool)
  | sendText
  | persistSnapshot (file : Json)
  | persistMetadata (file : Json)

/-- Is this effect a message send (photo or text), as opposed to a
persistence write? -/
def isSendEffect : Effect → Bool
  | Effect.sendPhoto _ => true
  | Effect.sendText => true
  | _ => false

/-- The photo-message loop (src/main.py lines 296-317): each queued
photo is sent; a failed send is followed by a text fallback.  `sendOk i`
is the delivery outcome of the i-th photo. -/
def photoEffects (sendOk : Nat → Bool) (n : Nat) : List Effect :=
  (List.range n).foldr
    (fun i acc =>
      Effect.sendPhoto (sendOk i) ::
        (if sendOk i then acc else Effect.sendText :: acc)) []

/-- The text-message branch (src/main.py lines 321-369): an over-long
message is split and sent, otherwise a single message is sent when there
are changes or no-change messages are configured.  Message pagination
and formatting are the notification collaborator's concern; each
sending sub-branch is modelled as one text send. -/
def textEffects (hasChanges sendNoChange tooLong : Bool) : List Effect :=
  if tooLong then [Effect.sendText]
  else if hasChanges || sendNoChange then [Effect.sendText]
  else []

/-- Mutable state threaded through the per-root loop of
src/main.py lines 170-266. -/
structure LoopState where
  perRoot : List (String × List String × List String)
  addedCount : Nat
  removedCount : Nat
  hasChanges : Bool
  cache : List (String × Json)
  posters : List String
  photoQueue : Nat

/-- One iteration of the loop over the sorted added folders of one root
(src/main.py lines 190-243): enrich the folder, count a queued photo. -/
def enrichStep (lookupOmdb : String → Option String → Option (List (String × Json)))
    (downloadPoster : Json → String → Option String) (now : String)
    (st : LoopState) (folder : String) : LoopState :=
  let r := enrichOne lookupOmdb downloadPoster now st.cache folder
  { st with
    cache := r.cache
    photoQueue := st.photoQueue + (if r.posterQueued then 1 else 0) }

/-- The whole loop over the sorted added folders of one root. -/
def enrichAdded (lookupOmdb : String → Option String → Option (List (String × Json)))
    (downloadPoster : Json → String → Option String) (now : String)
    (st : LoopState) (folders : List String) : LoopState :=
  folders.foldl (enrichStep lookupOmdb downloadPoster now) st

/-- One iteration of the per-root loop (src/main.py lines 170-266):
diff the root by set difference, enrich each added folder in sorted
order, evict each removed folder in sorted order. -/
def processRoot (lookupOmdb : String → Option String → Option (List (String × Json)))
    (downloadPoster : Json → String → Option String)
    (removeFails : String → Bool) (now : String)
    (old_state : List (String × PVal)) (current_state : List (String × List String))
    (st : LoopState) (root : String) : LoopState :=
  let old_set := snapGetOld old_state root
  let cur_set := (dictFind current_state root).getD []
  let added := setDiff cur_set old_set
  let removed := setDiff old_set cur_set
  let st :=
    { st with
      perRoot := st.perRoot ++ [(root, added, removed)]
      addedCount := st.addedCount + added.length
      removedCount := st.removedCount + removed.length
      hasChanges := st.hasChanges || !added.isEmpty || !removed.isEmpty }
  let st := enrichAdded lookupOmdb downloadPoster now st (sortStrings added)
  let pc := processRemoved removeFails (st.posters, st.cache) (sortStrings removed)
  { st with posters := pc.1, cache := pc.2 }

/-- Everything `periodic_folder_scan` consumes: configuration, the two
persisted files, the live directory listings, the scan's timestamp and
the external collaborators.  `listing` models `get_subfolders`, which
returns the direct child folders and the empty list for a missing or
unreadable root; `posters` is the poster directory's listing. -/
structure ScanInput where
  monitored : List String
  listing : String → List String
  snapFile : ParsedFile
  cacheFile : ParsedFile
  posters : List String
  now : String
  lookupOmdb : String → Option String → Option (List (String × Json))
  downloadPoster : Json → String → Option String
  removeFails : String → Bool
  sendOk : Nat → Bool
  sendNoChange : Bool
  tooLong : Bool

/-- Outcome of one scan: the per-root diffs, the overall counts, the
final in-memory cache and poster directory, the dict mutated by
`write_folder_state`, the two files written, and the ordered effects. -/
structure ScanResult where
  perRoot : List (String × List String × List String)
  overallAdded : Nat
  overallRemoved : Nat
  cache : List (String × Json)
  posters : List String
  snapMutated : List (String × PVal)
  snapFileWritten : Json
  cacheFileWritten : Json
  effects : List Effect

/-- The body of `periodic_folder_scan` (src/main.py lines 107-379) once
the metadata cache has been loaded: read the previous folder state, list
the current one, diff/enrich/evict per root, send the notifications,
then persist the snapshot (line 373) and the cache (line 376), in that
order. -/
def scanCore (inp : ScanInput) (cache0 : List (String × Json)) : ScanResult :=
  let old_state := read_folder_state inp.snapFile
  let current_state : List (String × List String) :=
    inp.monitored.map (fun root => (root, mkSet (inp.listing root)))
  let st0 : LoopState := ⟨[], 0, 0, false, cache0, inp.posters, 0⟩
  let stF := inp.monitored.foldl
    (processRoot inp.lookupOmdb inp.downloadPoster inp.removeFails inp.now
      old_state current_state) st0
  let written := write_folder_state
    (inp.monitored.map (fun root => (root, PVal.pset (mkSet (inp.listing root)))))
    inp.now
  let cacheJson := write_media_metadata stF.cache
  { perRoot := stF.perRoot
    overallAdded := stF.addedCount
    overallRemoved := stF.removedCount
    cache := stF.cache
    posters := stF.posters
    snapMutated := written.1
    snapFileWritten := written.2
    cacheFileWritten := cacheJson
    effects := photoEffects inp.sendOk stF.photoQueue ++
      textEffects stF.hasChanges inp.sendNoChange inp.tooLong ++
      [Effect.persistSnapshot written.2, Effect.persistMetadata cacheJson] }

/-- `periodic_folder_scan`: load the metadata cache (src/main.py line
140) and run the scan body.  A cache file whose parsed value is not an
object makes the later `.get` calls raise and the scan abort before
writing anything; that is the `none` case. -/
def periodic_folder_scan (inp : ScanInput) : Option ScanResult :=
  match read_media_metadata inp.cacheFile with
  | Json.obj cache0 => some (scanCore inp cache0)
  | _ => none

/-- The current live set of a root during a scan:
`set(get_subfolders(folder_path))` (src/main.py line 152). -/
def curSet (inp : ScanInput) (root : String) : List String :=
  mkSet (inp.listing root)

/-- The previous set of a root during a scan:
`old_folder_state.get(folder_path, set())` over the loaded snapshot
(src/main.py lines 145 and 172). -/
def prevSet (inp : ScanInput) (root : String) : List String :=
  snapGetOld (read_folder_state inp.snapFile) root

/-- The field list of a JSON object (empty for non-objects). -/
def objFields : Json → List (String × Json)
  | Json.obj fields => fields
  | _ => []

/-! ### Concrete sample inputs for witnesses -/

/-- A small concrete scan input: one monitored root `"m"` whose live
listing is `["A"]`, first-run files, no collaborator activity. -/
def sampleIn : ScanInput :=
  { monitored := ["m"]
    listing := fun _ => ["A"]
    snapFile := ParsedFile.missing
    cacheFile := ParsedFile.missing
    posters := []
    now := "t1"
    lookupOmdb := fun _ _ => none
    downloadPoster := fun _ _ => none
    removeFails := fun _ => false
    sendOk := fun _ => true
    sendNoChange := false
    tooLong := false }

/-- The result of the first sample scan. -/
def sampleRun1 : ScanResult := scanCore sampleIn []

/-- The second sample scan: same filesystem, files produced by the first
scan, a later timestamp. -/
def sampleIn2 : ScanInput :=
  { sampleIn with
    snapFile := ParsedFile.parsed sampleRun1.snapFileWritten
    cacheFile := ParsedFile.parsed sampleRun1.cacheFileWritten
    now := "t2" }

/-- The result of the second sample scan. -/
def sampleRun2 : ScanResult := scanCore sampleIn2 []

/-- A concrete cache record used to witness timestamp stability. -/
def recF : Json :=
  Json.obj [("last_fetched", Json.str "x"), ("added_timestamp", Json.str "a")]

/-- A scan input whose metadata cache already holds `recF` for folder
`"F"`. -/
def c6In : ScanInput :=
  { sampleIn with cacheFile := ParsedFile.parsed (Json.obj [("F", recF)]) }

/-- The result of scanning `c6In`. -/
def c6Out : ScanResult := scanCore c6In [("F", recF)]

/-! ### Lemmas: dictionaries -/

theorem dictFind_dictSet_self {α : Type} (d : List (String × α)) (k : String) (v : α) :
    dictFind (dictSet d k v) k = some v := by
  induction d with
  | nil => simp [dictSet, dictFind]
  | cons p rest ih =>
    by_cases h : p.1 = k <;> simp [dictSet, dictFind, h, ih]

theorem dictFind_dictSet_ne {α : Type} (d : List (String × α)) (k k' : String) (v : α)
    (h : k' ≠ k) : dictFind (dictSet d k v) k' = dictFind d k' := by
  induction d with
  | nil => simp [dictSet, dictFind, Ne.symm h]
  | cons p rest ih =>
    by_cases hp : p.1 = k
    · have hpk' : ¬ p.1 = k' := by rw [hp]; exact Ne.symm h
      simp only [dictSet, if_pos hp, dictFind, if_neg (Ne.symm h), if_neg hpk']
    · simp only [dictSet, if_neg hp, dictFind]
      by_cases hp' : p.1 = k' <;> simp [hp', ih]

theorem dictSet_of_not_mem {α : Type} (d : List (String × α)) (k : String) (v : α)
    (h : ∀ p ∈ d, p.1 ≠ k) : dictSet d k v = d ++ [(k, v)] := by
  induction d with
  | nil => simp [dictSet]
  | cons p rest ih =>
    have hp : p.1 ≠ k := h p (by simp)
    simp only [dictSet, if_neg hp, List.cons_append, List.cons.injEq, true_and]
    exact ih (fun q hq => h q (by simp [hq]))

theorem dictFind_dictErase_self {α : Type} (d : List (String × α)) (k : String) :
    dictFind (dictErase d k) k = none := by
  induction d with
  | nil => simp [dictErase, dictFind]
  | cons p rest ih =>
    by_cases h : p.1 = k <;> simp [dictErase, dictFind, h, ih]

theorem dictFind_dictErase_ne {α : Type} (d : List (String × α)) (k k' : String)
    (h : k' ≠ k) : dictFind (dictErase d k) k' = dictFind d k' := by
  induction d with
  | nil => simp [dictErase, dictFind]
  | cons p rest ih =>
    by_cases hp : p.1 = k
    · have hpk' : ¬ p.1 = k' := by rw [hp]; exact Ne.symm h
      simp only [dictErase, if_pos hp, dictFind, if_neg hpk', ih]
    · simp only [dictErase, if_neg hp, dictFind]
      by_cases hp' : p.1 = k' <;> simp [hp', ih]

theorem dictFind_of_mem_nodup {α : Type} (d : List (String × α)) (k : String) (v : α)
    (hd : (d.map Prod.fst).Nodup) (hm : (k, v) ∈ d) : dictFind d k = some v := by
  induction d with
  | nil => cases hm
  | cons p rest ih =>
    rcases List.mem_cons.mp hm with h | h
    · subst h; simp [dictFind]
    · have hpk : p.1 ≠ k := by
        intro he
        have : k ∈ rest.map Prod.fst := List.mem_map.mpr ⟨(k, v), h, rfl⟩
        exact (List.nodup_cons.mp (by simpa using hd)).1 (he ▸ this)
      simp only [dictFind, if_neg hpk]
      exact ih (List.nodup_cons.mp (by simpa using hd)).2 h

theorem dictFind_perm {α : Type} {d d' : List (String × α)} (k : String)
    (hd : (d.map Prod.fst).Nodup) (hp : d.Perm d') :
    dictFind d k = dictFind d' k := by
  induction hp with
  | nil => rfl
  | cons x _ ih =>
    simp only [dictFind]
    by_cases h : x.1 = k
    · simp [h]
    · simp only [if_neg h]
      exact ih (List.nodup_cons.mp (by simpa using hd)).2
  | swap x y l =>
    have hne : y.1 ≠ x.1 := by
      have h0 : (y.1 :: x.1 :: l.map Prod.fst).Nodup := by simpa using hd
      exact List.rel_of_pairwise_cons h0 (List.mem_cons_self _ _)
    simp only [dictFind]
    by_cases hy : y.1 = k <;> by_cases hx : x.1 = k
    · exact absurd (hy.trans hx.symm) hne
    all_goals simp [hx, hy]
  | trans h₁ _ ih₁ ih₂ =>
    exact (ih₁ hd).trans (ih₂ ((h₁.map Prod.fst).nodup hd))

/-! ### Lemmas: sorting and Python sets -/

theorem charListLe_total : ∀ a b : List Char, charListLe a b = true ∨ charListLe b a = true
  | [], _ => Or.inl rfl
  | _ :: _, [] => Or.inr rfl
  | c :: cs, d :: ds => by
    by_cases h : c = d
    · subst h
      simpa [charListLe] using charListLe_total cs ds
    · rcases lt_or_gt_of_ne h with hlt | hgt
      · exact Or.inl (by simp [charListLe, h, hlt])
      · exact Or.inr (by simp [charListLe, Ne.symm h, hgt])

theorem charListLe_antisymm : ∀ a b : List Char,
    charListLe a b = true → charListLe b a = true → a = b
  | [], [], _, _ => rfl
  | [], _ :: _, _, h₂ => by simp [charListLe] at h₂
  | _ :: _, [], h₁, _ => by simp [charListLe] at h₁
  | c :: cs, d :: ds, h₁, h₂ => by
    by_cases h : c = d
    · subst h
      simp only [charListLe, if_pos rfl] at h₁ h₂
      exact congrArg (c :: ·) (charListLe_antisymm cs ds h₁ h₂)
    · simp only [charListLe, if_neg h, if_neg (Ne.symm h), decide_eq_true_eq] at h₁ h₂
      exact absurd h₂ (not_lt.mpr h₁.le)

theorem strLe_total (a b : String) : strLe a b = true ∨ strLe b a = true :=
  charListLe_total a.toList b.toList

theorem strLe_antisymm {a b : String} (h₁ : strLe a b = true) (h₂ : strLe b a = true) :
    a = b := by
  have h := charListLe_antisymm a.toList b.toList h₁ h₂
  exact String.ext (by simpa [String.toList] using h)

theorem insertLe_perm (x : String) (l : List String) : (insertLe x l).Perm (x :: l) := by
  induction l with
  | nil => simp [insertLe]
  | cons y ys ih =>
    by_cases h : strLe x y
    · simp [insertLe, h]
    · simpa [insertLe, h] using ((ih.cons y).trans (List.Perm.swap x y ys))

theorem sortStrings_perm (l : List String) : (sortStrings l).Perm l := by
  induction l with
  | nil => simp [sortStrings]
  | cons x xs ih => exact (insertLe_perm x (sortStrings xs)).trans (ih.cons x)

theorem mem_sortStrings {x : String} {l : List String} : x ∈ sortStrings l ↔ x ∈ l :=
  (sortStrings_perm l).mem_iff

theorem mem_mkSet {x : String} {l : List String} : x ∈ mkSet l ↔ x ∈ l := by
  simp [mkSet, mem_sortStrings]

theorem nodup_mkSet (l : List String) : (mkSet l).Nodup :=
  (sortStrings_perm l.dedup).symm.nodup l.nodup_dedup

theorem charListLe_trans : ∀ a b c : List Char,
    charListLe a b = true → charListLe b c = true → charListLe a c = true
  | [], _, _, _, _ => rfl
  | _ :: _, [], _, h₁, _ => by simp [charListLe] at h₁
  | _ :: _, _ :: _, [], _, h₂ => by simp [charListLe] at h₂
  | a :: as, b :: bs, c :: cs, h₁, h₂ => by
    by_cases hab : a = b <;> by_cases hbc : b = c
    · subst hab; subst hbc
      simp only [charListLe, if_pos rfl] at h₁ h₂ ⊢
      exact charListLe_trans as bs cs h₁ h₂
    · subst hab
      simpa [charListLe, hbc] using h₂
    · subst hbc
      simpa [charListLe, hab] using h₁
    · simp only [charListLe, if_neg hab, if_neg hbc, decide_eq_true_eq] at h₁ h₂
      have hac : a < c := h₁.trans h₂
      simp [charListLe, ne_of_lt hac, hac]

theorem strLe_trans {a b c : String} (h₁ : strLe a b = true) (h₂ : strLe b c = true) :
    strLe a c = true :=
  charListLe_trans a.toList b.toList c.toList h₁ h₂

theorem insertLe_comm (x y : String) (l : List String) :
    insertLe x (insertLe y l) = insertLe y (insertLe x l) := by
  induction l with
  | nil =>
    simp only [insertLe]
    cases hxy : strLe x y <;> cases hyx : strLe y x
    · exact absurd (strLe_total x y) (by simp [hxy, hyx])
    · simp
    · simp
    · rw [strLe_antisymm hxy hyx]
  | cons z zs ih =>
    cases hxz : strLe x z <;> cases hyz : strLe y z
    · simp [insertLe, hxz, hyz, ih]
    · have hxy : strLe x y = false := by
        cases h : strLe x y
        · rfl
        · exact absurd (strLe_trans h hyz) (by simp [hxz])
      simp [insertLe, hxz, hyz, hxy]
    · have hyx : strLe y x = false := by
        cases h : strLe y x
        · rfl
        · exact absurd (strLe_trans h hxz) (by simp [hyz])
      simp [insertLe, hxz, hyz, hyx]
    · cases hxy : strLe x y <;> cases hyx : strLe y x
      · exact absurd (strLe_total x y) (by simp [hxy, hyx])
      · simp [insertLe, hxz, hyz, hxy, hyx]
      · simp [insertLe, hxz, hyz, hxy, hyx]
      · rw [strLe_antisymm hxy hyx]

theorem sortStrings_perm_congr {l l' : List String} (h : l.Perm l') :
    sortStrings l = sortStrings l' := by
  induction h with
  | nil => rfl
  | cons x _ ih => simp [sortStrings, ih]
  | swap x y l => simp [sortStrings, insertLe_comm]
  | trans _ _ ih₁ ih₂ => exact ih₁.trans ih₂

theorem sortStrings_idem (l : List String) :
    sortStrings (sortStrings l) = sortStrings l :=
  sortStrings_perm_congr (sortStrings_perm l)

/-- Persist-then-load of one Python set: serializing a set as its sorted
list and re-building a set from that list gives back the same set. -/
theorem mkSet_roundtrip (l : List String) :
    mkSet (sortStrings (mkSet l)) = mkSet l := by
  have hnd : (sortStrings (mkSet l)).Nodup :=
    (sortStrings_perm (mkSet l)).symm.nodup (nodup_mkSet l)
  calc mkSet (sortStrings (mkSet l))
      = sortStrings ((sortStrings (mkSet l)).dedup) := rfl
    _ = sortStrings (sortStrings (mkSet l)) := by rw [List.dedup_eq_self.mpr hnd]
    _ = sortStrings (mkSet l) := sortStrings_idem _
    _ = mkSet l := sortStrings_idem l.dedup

theorem mem_setDiff {x : String} {a b : List String} :
    x ∈ setDiff a b ↔ x ∈ a ∧ x ∉ b := by
  simp [setDiff, List.mem_filter]

theorem setDiff_self (a : List String) : setDiff a a = [] := by
  simp only [setDiff, List.filter_eq_nil_iff]
  intro x hx
  simp [hx]

theorem setDiff_toFinset (a b : List String) :
    (setDiff a b).toFinset = a.toFinset \ b.toFinset := by
  ext x
  simp [mem_setDiff, Finset.mem_sdiff]

/-! ### Lemmas: the scan loop -/

theorem foldl_proj {α β γ : Type _} (step : β → α → β) (proj : β → γ)
    (hstep : ∀ st a, proj (step st a) = proj st) :
    ∀ (l : List α) (st : β), proj (l.foldl step st) = proj st := by
  intro l
  induction l with
  | nil => exact fun _ => rfl
  | cons a as ih => intro st; rw [List.foldl_cons, ih, hstep]

theorem enrichAdded_perRoot (L : String → Option String → Option (List (String × Json)))
    (D : Json → String → Option String) (now : String)
    (folders : List String) (st : LoopState) :
    (enrichAdded L D now st folders).perRoot = st.perRoot :=
  foldl_proj (enrichStep L D now) LoopState.perRoot (fun _ _ => rfl) folders st

theorem enrichAdded_addedCount (L : String → Option String → Option (List (String × Json)))
    (D : Json → String → Option String) (now : String)
    (folders : List String) (st : LoopState) :
    (enrichAdded L D now st folders).addedCount = st.addedCount :=
  foldl_proj (enrichStep L D now) LoopState.addedCount (fun _ _ => rfl) folders st

theorem enrichAdded_removedCount (L : String → Option String → Option (List (String × Json)))
    (D : Json → String → Option String) (now : String)
    (folders : List String) (st : LoopState) :
    (enrichAdded L D now st folders).removedCount = st.removedCount :=
  foldl_proj (enrichStep L D now) LoopState.removedCount (fun _ _ => rfl) folders st

theorem enrichAdded_hasChanges (L : String → Option String → Option (List (String × Json)))
    (D : Json → String → Option String) (now : String)
    (folders : List String) (st : LoopState) :
    (enrichAdded L D now st folders).hasChanges = st.hasChanges :=
  foldl_proj (enrichStep L D now) LoopState.hasChanges (fun _ _ => rfl) folders st

theorem enrichAdded_posters (L : String → Option String → Option (List (String × Json)))
    (D : Json → String → Option String) (now : String)
    (folders : List String) (st : LoopState) :
    (enrichAdded L D now st folders).posters = st.posters :=
  foldl_proj (enrichStep L D now) LoopState.posters (fun _ _ => rfl) folders st

theorem processRoot_perRoot (L : String → Option String → Option (List (String × Json)))
    (D : Json → String → Option String) (R : String → Bool) (now : String)
    (old : List (String × PVal)) (cur : List (String × List String))
    (st : LoopState) (root : String) :
    (processRoot L D R now old cur st root).perRoot =
      st.perRoot ++ [(root,
        setDiff ((dictFind cur root).getD []) (snapGetOld old root),
        setDiff (snapGetOld old root) ((dictFind cur root).getD []))] := by
  unfold processRoot
  simp [enrichAdded_perRoot]

theorem processRoot_addedCount (L : String → Option String → Option (List (String × Json)))
    (D : Json → String → Option String) (R : String → Bool) (now : String)
    (old : List (String × PVal)) (cur : List (String × List String))
    (st : LoopState) (root : String) :
    (processRoot L D R now old cur st root).addedCount =
      st.addedCount + (setDiff ((dictFind cur root).getD []) (snapGetOld old root)).length := by
  unfold processRoot
  simp [enrichAdded_addedCount]

theorem processRoot_removedCount (L : String → Option String → Option (List (String × Json)))
    (D : Json → String → Option String) (R : String → Bool) (now : String)
    (old : List (String × PVal)) (cur : List (String × List String))
    (st : LoopState) (root : String) :
    (processRoot L D R now old cur st root).removedCount =
      st.removedCount + (setDiff (snapGetOld old root) ((dictFind cur root).getD [])).length := by
  unfold processRoot
  simp [enrichAdded_removedCount]

theorem scanLoop_perRoot (L : String → Option String → Option (List (String × Json)))
    (D : Json → String → Option String) (R : String → Bool) (now : String)
    (old : List (String × PVal)) (cur : List (String × List String)) :
    ∀ (roots : List String) (st : LoopState),
    (roots.foldl (processRoot L D R now old cur) st).perRoot =
      st.perRoot ++ roots.map (fun root =>
        (root, setDiff ((dictFind cur root).getD []) (snapGetOld old root),
               setDiff (snapGetOld old root) ((dictFind cur root).getD []))) := by
  intro roots
  induction roots with
  | nil => intro st; simp
  | cons r rest ih =>
    intro st
    rw [List.foldl_cons, ih, processRoot_perRoot]
    simp

theorem scanLoop_addedCount (L : String → Option String → Option (List (String × Json)))
    (D : Json → String → Option String) (R : String → Bool) (now : String)
    (old : List (String × PVal)) (cur : List (String × List String)) :
    ∀ (roots : List String) (st : LoopState),
    (roots.foldl (processRoot L D R now old cur) st).addedCount =
      st.addedCount + (roots.map (fun root =>
        (setDiff ((dictFind cur root).getD []) (snapGetOld old root)).length)).sum := by
  intro roots
  induction roots with
  | nil => intro st; simp
  | cons r rest ih =>
    intro st
    rw [List.foldl_cons, ih, processRoot_addedCount]
    simp [Nat.add_assoc]

theorem scanLoop_removedCount (L : String → Option String → Option (List (String × Json)))
    (D : Json → String → Option String) (R : String → Bool) (now : String)
    (old : List (String × PVal)) (cur : List (String × List String)) :
    ∀ (roots : List String) (st : LoopState),
    (roots.foldl (processRoot L D R now old cur) st).removedCount =
      st.removedCount + (roots.map (fun root =>
        (setDiff (snapGetOld old root) ((dictFind cur root).getD [])).length)).sum := by
  intro roots
  induction roots with
  | nil => intro st; simp
  | cons r rest ih =>
    intro st
    rw [List.foldl_cons, ih, processRoot_removedCount]
    simp [Nat.add_assoc]

theorem dictFind_map_self {β : Type} (f : String → β) (roots : List String) (r : String)
    (hr : r ∈ roots) :
    dictFind (roots.map (fun root => (root, f root))) r = some (f r) := by
  induction roots with
  | nil => cases hr
  | cons a rest ih =>
    by_cases h : a = r
    · subst h; simp [dictFind]
    · have hr' : r ∈ rest := by
        rcases List.mem_cons.mp hr with h' | h'
        · exact absurd h'.symm h
        · exact h'
      simp [dictFind, h, ih hr']

theorem scanCore_perRoot (inp : ScanInput) (cache0 : List (String × Json)) :
    (scanCore inp cache0).perRoot = inp.monitored.map (fun root =>
      (root, setDiff (curSet inp root) (prevSet inp root),
             setDiff (prevSet inp root) (curSet inp root))) := by
  simp only [scanCore]
  rw [scanLoop_perRoot]
  simp only [List.nil_append]
  refine List.map_congr_left (fun root hroot => ?_)
  rw [dictFind_map_self _ _ _ hroot]
  rfl

theorem scanCore_addedCount (inp : ScanInput) (cache0 : List (String × Json)) :
    (scanCore inp cache0).overallAdded = (inp.monitored.map (fun root =>
      (setDiff (curSet inp root) (prevSet inp root)).length)).sum := by
  simp only [scanCore]
  rw [scanLoop_addedCount]
  simp only [Nat.zero_add]
  congr 1
  refine List.map_congr_left (fun root hroot => ?_)
  rw [dictFind_map_self _ _ _ hroot]
  rfl

theorem scanCore_removedCount (inp : ScanInput) (cache0 : List (String × Json)) :
    (scanCore inp cache0).overallRemoved = (inp.monitored.map (fun root =>
      (setDiff (prevSet inp root) (curSet inp root)).length)).sum := by
  simp only [scanCore]
  rw [scanLoop_removedCount]
  simp only [Nat.zero_add]
  congr 1
  refine List.map_congr_left (fun root hroot => ?_)
  rw [dictFind_map_self _ _ _ hroot]
  rfl

/-- Extract the `scanCore` shape from a successful `periodic_folder_scan`. -/
theorem periodic_folder_scan_eq (inp : ScanInput) (out : ScanResult)
    (hout : periodic_folder_scan inp = some out) :
    ∃ cache0, read_media_metadata inp.cacheFile = Json.obj cache0 ∧
      out = scanCore inp cache0 := by
  unfold periodic_folder_scan at hout
  rcases hre : read_media_metadata inp.cacheFile with _ | _ | _ | _ | _ | fields <;>
      rw [hre] at hout <;> simp at hout
  exact ⟨fields, rfl, hout.symm⟩

/-! ### Claim C1 -/

/-- C1: For every previous snapshot and current snapshot, and for each
monitored root independently, the per-scan diff computes
`added = current[root] - previous[root]` and
`removed = previous[root] - current[root]` as set differences (a root
absent from the previous snapshot is treated as an empty prior set),
and diffing a snapshot against itself yields empty added and removed
sets for every root. -/
theorem diff_is_set_difference (inp : ScanInput) (out : ScanResult)
    (hout : periodic_folder_scan inp = some out) :
    out.perRoot = inp.monitored.map (fun root =>
        (root, setDiff (curSet inp root) (prevSet inp root),
               setDiff (prevSet inp root) (curSet inp root)))
  ∧ (∀ a b : List String, (setDiff a b).toFinset = a.toFinset \ b.toFinset)
  ∧ (∀ root, dictFind (read_folder_state inp.snapFile) root = none →
       prevSet inp root = [])
  ∧ ((∀ root ∈ inp.monitored, curSet inp root = prevSet inp root) →
       out.perRoot = inp.monitored.map
         (fun root => (root, ([] : List String), ([] : List String)))) := by
  obtain ⟨cache0, hre, rfl⟩ := periodic_folder_scan_eq inp out hout
  refine ⟨scanCore_perRoot inp cache0, setDiff_toFinset, ?_, ?_⟩
  · intro root h
    simp [prevSet, snapGetOld, h]
  · intro hself
    rw [scanCore_perRoot]
    refine List.map_congr_left (fun root hroot => ?_)
    rw [hself root hroot, setDiff_self]

/-- Witness for C1: the theorem applied to the concrete sample scan. -/
theorem diff_is_set_difference_witness :
    sampleRun1.perRoot = sampleIn.monitored.map (fun root =>
        (root, setDiff (curSet sampleIn root) (prevSet sampleIn root),
               setDiff (prevSet sampleIn root) (curSet sampleIn root)))
  ∧ (∀ a b : List String, (setDiff a b).toFinset = a.toFinset \ b.toFinset)
  ∧ (∀ root, dictFind (read_folder_state sampleIn.snapFile) root = none →
       prevSet sampleIn root = [])
  ∧ ((∀ root ∈ sampleIn.monitored, curSet sampleIn root = prevSet sampleIn root) →
       sampleRun1.perRoot = sampleIn.monitored.map
         (fun root => (root, ([] : List String), ([] : List String)))) :=
  diff_is_set_difference sampleIn sampleRun1 rfl

/-! ### Lemmas: serializing and loading the snapshot file -/

theorem asStringList_map_str (l : List String) :
    asStringList (l.map Json.str) = some l := by
  induction l with
  | nil => rfl
  | cons s rest ih => simp [asStringList, ih]

theorem convertEntry_root (k : String) (names : List String) (h : k ≠ "last_updated") :
    convertEntry (k, Json.arr (names.map Json.str)) = some (k, PVal.pset (mkSet names)) := by
  simp [convertEntry, h, asStringList_map_str]

theorem convertFolderState_serial (st : List (String × List String)) (j : Json)
    (h : ∀ p ∈ st, p.1 ≠ "last_updated") :
    convertFolderState ((st.map (fun p => (p.1, Json.arr ((sortStrings p.2).map Json.str)))) ++
        [("last_updated", j)]) =
      some ((st.map (fun p => (p.1, PVal.pset (mkSet (sortStrings p.2))))) ++
        [("last_updated", PVal.raw j)]) := by
  induction st with
  | nil => simp [convertFolderState, convertEntry]
  | cons p rest ih =>
    have hp := h p (by simp)
    simp only [List.map_cons, List.cons_append, convertFolderState]
    rw [convertEntry_root _ _ hp]
    simp only [List.append_eq]
    rw [ih (fun q hq => h q (by simp [hq]))]

theorem write_folder_state_file (st : List (String × List String)) (t : String)
    (h : ∀ p ∈ st, p.1 ≠ "last_updated") :
    (write_folder_state (st.map (fun p => (p.1, PVal.pset p.2))) t).2 =
      Json.obj ((st.map (fun p => (p.1, Json.arr ((sortStrings p.2).map Json.str)))) ++
        [("last_updated", Json.str t)]) := by
  simp only [write_folder_state]
  rw [dictSet_of_not_mem]
  · simp [List.map_append, List.map_map, serializePVal]
  · intro p hp
    obtain ⟨q, hq, he⟩ := List.mem_map.mp hp
    rw [← he]
    exact h q hq

theorem dictFind_append_of_some {α : Type} (l l' : List (String × α)) (k : String) (v : α)
    (h : dictFind l k = some v) : dictFind (l ++ l') k = some v := by
  induction l with
  | nil => cases h
  | cons p rest ih =>
    simp only [dictFind, List.cons_append] at h ⊢
    by_cases hp : p.1 = k
    · rw [if_pos hp] at h
      rw [if_pos hp]
      exact h
    · rw [if_neg hp] at h
      rw [if_neg hp]
      exact ih h

theorem dictFind_append_of_none {α : Type} (l l' : List (String × α)) (k : String)
    (h : dictFind l k = none) : dictFind (l ++ l') k = dictFind l' k := by
  induction l with
  | nil => rfl
  | cons p rest ih =>
    simp only [dictFind] at h ⊢
    by_cases hp : p.1 = k
    · rw [if_pos hp] at h; cases h
    · rw [if_neg hp] at h ⊢
      exact ih h

theorem dictFind_map_val {α β : Type} (g : String → α → β) (l : List (String × α))
    (k : String) :
    dictFind (l.map (fun p => (p.1, g p.1 p.2))) k = (dictFind l k).map (g k) := by
  induction l with
  | nil => rfl
  | cons p rest ih =>
    by_cases hp : p.1 = k
    · subst hp; simp [dictFind, ih]
    · simp [dictFind, hp, ih]

/-! ### Claim C8 -/

/-- C8: Loading persisted state never raises: both loaders are total
functions of the three parse outcomes, and for the snapshot store and
the metadata cache alike, a missing file yields the empty mapping (the
expected first-run condition) and a corrupt/unparseable file is logged
and also yields the empty mapping instead of failing the scan. -/
theorem load_tolerates_missing_and_corrupt :
    read_folder_state ParsedFile.missing = []
  ∧ read_folder_state ParsedFile.unparseable = []
  ∧ read_media_metadata ParsedFile.missing = Json.obj []
  ∧ read_media_metadata ParsedFile.unparseable = Json.obj [] :=
  ⟨rfl, rfl, rfl, rfl⟩

/-! ### Claim C10 -/

/-- C10: Saving a FolderSnapshot mutates the caller's in-memory
snapshot: `write_folder_state` assigns the reserved `"last_updated"` key
(holding the scan's timestamp) into the dict passed in before
serializing it, so after a save the caller's snapshot contains an extra
`"last_updated"` entry alongside the per-root folder sets, which are
untouched. -/
theorem write_folder_state_mutates_input (st : List (String × PVal)) (t : String)
    (h : ∀ p ∈ st, p.1 ≠ "last_updated") :
    (write_folder_state st t).1 = st ++ [("last_updated", PVal.raw (Json.str t))]
  ∧ dictFind (write_folder_state st t).1 "last_updated" = some (PVal.raw (Json.str t))
  ∧ (∀ k, k ≠ "last_updated" →
       dictFind (write_folder_state st t).1 k = dictFind st k) := by
  refine ⟨?_, ?_, ?_⟩
  · simp only [write_folder_state]
    exact dictSet_of_not_mem st _ _ h
  · simp only [write_folder_state]
    exact dictFind_dictSet_self st _ _
  · intro k hk
    simp only [write_folder_state]
    exact dictFind_dictSet_ne st _ k _ hk

/-- Witness for C10 at a concrete snapshot. -/
theorem write_folder_state_mutates_input_witness :
    (write_folder_state [("m", PVal.pset ["A"])] "t").1
      = [("m", PVal.pset ["A"])] ++ [("last_updated", PVal.raw (Json.str "t"))]
  ∧ dictFind (write_folder_state [("m", PVal.pset ["A"])] "t").1 "last_updated"
      = some (PVal.raw (Json.str "t"))
  ∧ (∀ k, k ≠ "last_updated" →
       dictFind (write_folder_state [("m", PVal.pset ["A"])] "t").1 k
         = dictFind [("m", PVal.pset ["A"])] k) :=
  write_folder_state_mutates_input [("m", PVal.pset ["A"])] "t"
    (by
      intro p hp
      simp only [List.mem_singleton] at hp
      subst hp
      decide)

/-! ### Lemmas: the snapshot file a scan writes, and reading it back -/

theorem scanCore_snapFileWritten (inp : ScanInput) (cache0 : List (String × Json))
    (hlu : "last_updated" ∉ inp.monitored) :
    (scanCore inp cache0).snapFileWritten =
      Json.obj ((inp.monitored.map (fun root =>
        (root, Json.arr ((sortStrings (curSet inp root)).map Json.str)))) ++
        [("last_updated", Json.str inp.now)]) := by
  have h1 : (scanCore inp cache0).snapFileWritten =
      (write_folder_state
        (inp.monitored.map (fun root => (root, PVal.pset (mkSet (inp.listing root)))))
        inp.now).2 := rfl
  have h2 : inp.monitored.map (fun root => (root, PVal.pset (mkSet (inp.listing root)))) =
      (inp.monitored.map (fun root => (root, mkSet (inp.listing root)))).map
        (fun p => (p.1, PVal.pset p.2)) := by
    rw [List.map_map]
    rfl
  rw [h1, h2, write_folder_state_file]
  · rw [List.map_map]
    rfl
  · intro p hp
    obtain ⟨root, hroot, he⟩ := List.mem_map.mp hp
    rw [← he]
    exact fun hc => hlu (hc ▸ hroot)

theorem read_after_write (inp : ScanInput) (cache0 : List (String × Json))
    (hlu : "last_updated" ∉ inp.monitored) :
    read_folder_state (ParsedFile.parsed (scanCore inp cache0).snapFileWritten) =
      (inp.monitored.map (fun root => (root, PVal.pset (curSet inp root)))) ++
        [("last_updated", PVal.raw (Json.str inp.now))] := by
  rw [scanCore_snapFileWritten inp cache0 hlu]
  have hmm : inp.monitored.map (fun root =>
      (root, Json.arr ((sortStrings (curSet inp root)).map Json.str))) =
      (inp.monitored.map (fun root => (root, mkSet (inp.listing root)))).map
        (fun p => (p.1, Json.arr ((sortStrings p.2).map Json.str))) := by
    rw [List.map_map]
    rfl
  have hne : ∀ p ∈ inp.monitored.map (fun root => (root, mkSet (inp.listing root))),
      p.1 ≠ "last_updated" := by
    intro p hp
    obtain ⟨root, hroot, he⟩ := List.mem_map.mp hp
    rw [← he]
    exact fun hc => hlu (hc ▸ hroot)
  simp only [read_folder_state]
  rw [hmm, convertFolderState_serial _ _ hne, Option.getD_some, List.map_map]
  congr 1
  refine List.map_congr_left (fun root hroot => ?_)
  show (root, PVal.pset (mkSet (sortStrings (mkSet (inp.listing root)))))
      = (root, PVal.pset (curSet inp root))
  rw [mkSet_roundtrip]
  rfl

theorem prevSet_second_run (inp : ScanInput) (cache0 : List (String × Json)) (inp2 : ScanInput)
    (hlu : "last_updated" ∉ inp.monitored)
    (hsnap : inp2.snapFile = ParsedFile.parsed (scanCore inp cache0).snapFileWritten)
    (root : String) (hroot : root ∈ inp.monitored) :
    prevSet inp2 root = curSet inp root := by
  unfold prevSet
  rw [hsnap, read_after_write inp cache0 hlu]
  unfold snapGetOld
  rw [dictFind_append_of_some _ _ root (PVal.pset (curSet inp root))
    (dictFind_map_self (fun r => PVal.pset (curSet inp r)) inp.monitored root hroot)]

/-! ### Claim C2 -/

/-- C2 counterexample: with no filesystem change between the two sample
runs, the second run sees zero added and zero removed folders - yet the
persisted snapshot file contents differ, because the reserved
`last_updated` field records each run's own write timestamp. -/
theorem scan_twice_snapshot_file_differs :
    periodic_folder_scan sampleIn = some sampleRun1
  ∧ periodic_folder_scan sampleIn2 = some sampleRun2
  ∧ (∀ root, sampleIn2.listing root = sampleIn.listing root)
  ∧ sampleRun2.overallAdded = 0 ∧ sampleRun2.overallRemoved = 0
  ∧ sampleRun2.snapFileWritten ≠ sampleRun1.snapFileWritten := by
  refine ⟨rfl, rfl, fun root => rfl, by decide, by decide, ?_⟩
  intro h
  have h1 : jGet sampleRun1.snapFileWritten "last_updated" = some (Json.str "t1") := rfl
  have h2 : jGet sampleRun2.snapFileWritten "last_updated" = some (Json.str "t2") := rfl
  rw [h, h1] at h2
  injection h2 with h3
  injection h3 with h4
  exact absurd h4 (by decide)

/-- C2 amended: running a scan twice with no filesystem change between
the runs (same monitored roots, same live listings) yields zero added
and zero removed folders on the second run, and the two persisted
snapshot files agree on every per-root entry; the only possible
difference is the reserved `last_updated` timestamp field, which
records each run's own write time. -/
theorem scan_idempotent_modulo_timestamp (inp inp2 : ScanInput) (out1 out2 : ScanResult)
    (hlu : "last_updated" ∉ inp.monitored)
    (hout1 : periodic_folder_scan inp = some out1)
    (hmon : inp2.monitored = inp.monitored)
    (hlist : inp2.listing = inp.listing)
    (hsnap : inp2.snapFile = ParsedFile.parsed out1.snapFileWritten)
    (hout2 : periodic_folder_scan inp2 = some out2) :
    out2.overallAdded = 0 ∧ out2.overallRemoved = 0
  ∧ (∃ rootsPart,
      out1.snapFileWritten = Json.obj (rootsPart ++ [("last_updated", Json.str inp.now)])
    ∧ out2.snapFileWritten = Json.obj (rootsPart ++ [("last_updated", Json.str inp2.now)])) := by
  obtain ⟨c1, hre1, rfl⟩ := periodic_folder_scan_eq _ _ hout1
  obtain ⟨c2, hre2, rfl⟩ := periodic_folder_scan_eq _ _ hout2
  have hlu2 : "last_updated" ∉ inp2.monitored := by rw [hmon]; exact hlu
  have hcur : ∀ root, curSet inp2 root = curSet inp root := by
    intro root
    unfold curSet
    rw [hlist]
  have hprev : ∀ root ∈ inp.monitored, prevSet inp2 root = curSet inp root :=
    fun root hroot => prevSet_second_run inp c1 inp2 hlu hsnap root hroot
  refine ⟨?_, ?_, ?_⟩
  · rw [scanCore_addedCount]
    refine List.sum_eq_zero ?_
    intro x hx
    rw [hmon] at hx
    obtain ⟨root, hroot, he⟩ := List.mem_map.mp hx
    rw [← he, hcur root, hprev root hroot, setDiff_self]
    rfl
  · rw [scanCore_removedCount]
    refine List.sum_eq_zero ?_
    intro x hx
    rw [hmon] at hx
    obtain ⟨root, hroot, he⟩ := List.mem_map.mp hx
    rw [← he, hcur root, hprev root hroot, setDiff_self]
    rfl
  · refine ⟨inp.monitored.map (fun root =>
      (root, Json.arr ((sortStrings (curSet inp root)).map Json.str))),
      scanCore_snapFileWritten inp c1 hlu, ?_⟩
    rw [scanCore_snapFileWritten inp2 c2 hlu2, hmon]
    congr 2
    exact List.map_congr_left (fun root hroot => by rw [hcur root])

/-- Witness for C2's amended theorem at the concrete sample runs. -/
theorem scan_idempotent_modulo_timestamp_witness :
    sampleRun2.overallAdded = 0 ∧ sampleRun2.overallRemoved = 0
  ∧ (∃ rootsPart,
      sampleRun1.snapFileWritten = Json.obj (rootsPart ++ [("last_updated", Json.str sampleIn.now)])
    ∧ sampleRun2.snapFileWritten = Json.obj (rootsPart ++ [("last_updated", Json.str sampleIn2.now)])) :=
  scan_idempotent_modulo_timestamp sampleIn sampleIn2 sampleRun1 sampleRun2
    (by decide) rfl rfl rfl rfl rfl

/-! ### Lemmas: loading is insensitive to on-disk key order -/

theorem convertEntry_key {p : String × Json} {q : String × PVal}
    (h : convertEntry p = some q) : q.1 = p.1 := by
  rcases p with ⟨k, v⟩
  simp only [convertEntry] at h
  by_cases hk : k = "last_updated"
  · rw [if_pos hk] at h
    injection h with h
    rw [← h]
  · rw [if_neg hk] at h
    rcases v with _ | _ | _ | _ | elems | _
    · cases h
    · cases h
    · cases h
    · cases h
    · obtain ⟨names, _, he⟩ := Option.map_eq_some'.mp h
      rw [← he]
    · cases h

theorem convertFolderState_keys {l : List (String × Json)} :
    ∀ {m : List (String × PVal)}, convertFolderState l = some m →
      m.map Prod.fst = l.map Prod.fst := by
  induction l with
  | nil =>
    intro m hm
    injection hm with hm
    rw [← hm]
    rfl
  | cons p rest ih =>
    intro m hm
    simp only [convertFolderState] at hm
    rcases he : convertEntry p with _ | q <;> rw [he] at hm
    · cases hm
    · rcases hr : convertFolderState rest with _ | m₁ <;> rw [hr] at hm
      · cases hm
      · injection hm with hm
        rw [← hm]
        simp [convertEntry_key he, ih hr]

theorem convertFolderState_perm {l l' : List (String × Json)} (hp : l.Perm l') :
    ∀ {m : List (String × PVal)}, convertFolderState l = some m →
      ∃ m', convertFolderState l' = some m' ∧ m.Perm m' := by
  induction hp with
  | nil =>
    intro m hm
    injection hm with hm
    exact ⟨m, by rw [← hm]; rfl, List.Perm.refl m⟩
  | cons x t ih =>
    rename_i l₁ l₂
    intro m hm
    simp only [convertFolderState] at hm ⊢
    rcases he : convertEntry x with _ | q <;> rw [he] at hm
    · cases hm
    · rcases hr : convertFolderState l₁ with _ | m₁ <;> rw [hr] at hm
      · cases hm
      · injection hm with hm
        obtain ⟨m₁', hconv', hperm⟩ := ih hr
        rw [hconv']
        exact ⟨q :: m₁', rfl, by rw [← hm]; exact hperm.cons q⟩
  | swap x y t =>
    intro m hm
    simp only [convertFolderState] at hm ⊢
    rcases hey : convertEntry y with _ | qy <;> rw [hey] at hm
    · cases hm
    · rcases hex : convertEntry x with _ | qx <;> rw [hex] at hm
      · rcases convertFolderState t with _ | mt
        · cases hm
        · cases hm
      · rcases hrt : convertFolderState t with _ | mt <;> rw [hrt] at hm
        · cases hm
        · injection hm with hm
          refine ⟨qx :: qy :: mt, rfl, ?_⟩
          rw [← hm]
          exact List.Perm.swap qx qy mt
  | trans h₁ h₂ ih₁ ih₂ =>
    intro m hm
    obtain ⟨m₁, e₁, p₁⟩ := ih₁ hm
    obtain ⟨m₂, e₂, p₂⟩ := ih₂ e₁
    exact ⟨m₂, e₂, p₁.trans p₂⟩

/-! ### Claim C3 -/

/-- C3: Saving a FolderSnapshot or a MediaMetadataCache to durable
storage and loading it back reproduces the same logical content - the
same root-to-folder-name-set mapping for snapshots (for every root),
the same folder-name-to-record mapping with identical fields for the
cache - independent of on-disk key ordering (any permutation of the
written object's fields loads to the same mapping). -/
theorem save_load_roundtrip :
    (∀ (snap : List (String × List String)) (t : String)
       (fields' : List (String × Json)),
       (snap.map Prod.fst).Nodup →
       (∀ p ∈ snap, p.1 ≠ "last_updated") →
       fields'.Perm (objFields (write_folder_state
         (snap.map (fun p => (p.1, PVal.pset (mkSet p.2)))) t).2) →
       ∀ root, snapGetOld (read_folder_state (ParsedFile.parsed (Json.obj fields'))) root
         = snapGetOld (snap.map (fun p => (p.1, PVal.pset (mkSet p.2)))) root)
  ∧ (∀ (cache : List (String × Json)) (fields' : List (String × Json)),
       (cache.map Prod.fst).Nodup →
       fields'.Perm (objFields (write_media_metadata cache)) →
       ∀ k, jGet (read_media_metadata (ParsedFile.parsed (Json.obj fields'))) k
         = dictFind cache k) := by
  constructor
  · intro snap t fields' hnd hlu hperm root
    have hne2 : ∀ p ∈ snap.map (fun p => (p.1, mkSet p.2)), p.1 ≠ "last_updated" := by
      intro p hp
      obtain ⟨q, hq, he⟩ := List.mem_map.mp hp
      rw [← he]
      exact hlu q hq
    have hw : (write_folder_state (snap.map (fun p => (p.1, PVal.pset (mkSet p.2)))) t).2 =
        Json.obj ((snap.map (fun p => (p.1, mkSet p.2))).map
          (fun p => (p.1, Json.arr ((sortStrings p.2).map Json.str))) ++
          [("last_updated", Json.str t)]) := by
      have h2 : snap.map (fun p => (p.1, PVal.pset (mkSet p.2))) =
          (snap.map (fun p => (p.1, mkSet p.2))).map (fun p => (p.1, PVal.pset p.2)) := by
        rw [List.map_map]
        rfl
      rw [h2, write_folder_state_file _ _ hne2]
    have hconv : convertFolderState
        ((snap.map (fun p => (p.1, mkSet p.2))).map
          (fun p => (p.1, Json.arr ((sortStrings p.2).map Json.str))) ++
          [("last_updated", Json.str t)]) =
        some ((snap.map (fun p => (p.1, PVal.pset (mkSet p.2)))) ++
          [("last_updated", PVal.raw (Json.str t))]) := by
      rw [convertFolderState_serial _ _ hne2]
      congr 2
      rw [List.map_map]
      refine List.map_congr_left (fun p hp => ?_)
      show (p.1, PVal.pset (mkSet (sortStrings (mkSet p.2)))) = (p.1, PVal.pset (mkSet p.2))
      rw [mkSet_roundtrip]
    have hkeys : (((snap.map (fun p => (p.1, PVal.pset (mkSet p.2)))) ++
        [("last_updated", PVal.raw (Json.str t))]).map Prod.fst).Nodup := by
      rw [List.map_append, List.map_map]
      refine List.nodup_append.mpr ⟨?_, List.nodup_singleton _, ?_⟩
      · exact hnd
      · intro a ha hb
        simp only [List.map_cons, List.map_nil, List.mem_singleton] at hb
        subst hb
        obtain ⟨q, hq, he⟩ := List.mem_map.mp ha
        exact hlu q hq he
    rw [hw] at hperm
    have hperm' : ((snap.map (fun p => (p.1, mkSet p.2))).map
        (fun p => (p.1, Json.arr ((sortStrings p.2).map Json.str))) ++
        [("last_updated", Json.str t)]).Perm fields' := hperm.symm
    obtain ⟨m', hconv', hmp⟩ := convertFolderState_perm hperm' hconv
    have hread : read_folder_state (ParsedFile.parsed (Json.obj fields')) = m' := by
      simp only [read_folder_state, hconv', Option.getD_some]
    rw [hread]
    have hfind : dictFind ((snap.map (fun p => (p.1, PVal.pset (mkSet p.2)))) ++
        [("last_updated", PVal.raw (Json.str t))]) root = dictFind m' root :=
      dictFind_perm root hkeys hmp
    unfold snapGetOld
    rw [← hfind]
    rcases hf : dictFind (snap.map (fun p => (p.1, PVal.pset (mkSet p.2)))) root
        with _ | v
    · rw [dictFind_append_of_none _ _ _ hf]
      by_cases hroot : "last_updated" = root
      · simp [dictFind, hroot, hf]
      · simp [dictFind, hroot, hf]
    · rw [dictFind_append_of_some _ _ _ _ hf, hf]
  · intro cache fields' hnd hperm k
    show dictFind fields' k = dictFind cache k
    exact (dictFind_perm k hnd hperm.symm).symm

/-- Witness for C3: a one-root snapshot and a one-record cache, loaded
from a reordered on-disk object. -/
theorem save_load_roundtrip_witness :
    (∀ root, snapGetOld (read_folder_state (ParsedFile.parsed (Json.obj
        [("last_updated", Json.str "t"), ("m", Json.arr [Json.str "A"])]))) root
      = snapGetOld ([("m", ["A"])].map (fun p => (p.1, PVal.pset (mkSet p.2)))) root)
  ∧ (∀ k, jGet (read_media_metadata (ParsedFile.parsed (Json.obj
        [("f", Json.obj [("title", Json.str "X")])]))) k
      = dictFind [("f", Json.obj [("title", Json.str "X")])] k) := by
  constructor
  · refine save_load_roundtrip.1 [("m", ["A"])] "t"
      [("last_updated", Json.str "t"), ("m", Json.arr [Json.str "A"])]
      (by decide) (by decide) ?_
    exact List.Perm.swap ("m", Json.arr [Json.str "A"]) ("last_updated", Json.str "t") []
  · refine save_load_roundtrip.2 [("f", Json.obj [("title", Json.str "X")])]
      [("f", Json.obj [("title", Json.str "X")])] ?_ (List.Perm.refl _)
    simp

/-! ### Lemmas: the poster step and enrichment of one folder -/

theorem posterStep_none (D : Json → String → Option String)
    (cache : List (String × Json)) (folder : String) (b : Bool) :
    posterStep D cache folder none b = ⟨cache, b, none, false⟩ := rfl

theorem posterStep_cases (D : Json → String → Option String)
    (cache : List (String × Json)) (folder : String) (m : Json) (b : Bool) :
    posterStep D cache folder (some m) b = ⟨cache, b, some m, false⟩
  ∨ (∃ path, posterStep D cache folder (some m) b =
      ⟨dictSet cache folder (jSet m "local_poster_path" (Json.str path)), b,
       some (jSet m "local_poster_path" (Json.str path)), true⟩) := by
  simp only [posterStep]
  rcases hg : jGet m "poster_url" with _ | url
  · exact Or.inl rfl
  · dsimp only
    cases hcond : (jTruthy m && jTruthy url && !jIsNA url)
    · rw [if_neg Bool.false_ne_true]
      exact Or.inl rfl
    · rw [if_pos rfl]
      rcases D url folder with _ | path
      · exact Or.inl rfl
      · exact Or.inr ⟨path, rfl⟩

theorem posterStep_fetchCalled (D : Json → String → Option String)
    (cache : List (String × Json)) (folder : String) (md : Option Json) (b : Bool) :
    (posterStep D cache folder md b).fetchCalled = b := by
  rcases md with _ | m
  · rfl
  · rcases posterStep_cases D cache folder m b with h | ⟨path, h⟩ <;> rw [h]

theorem posterStep_cache_other (D : Json → String → Option String)
    (cache : List (String × Json)) (folder : String) (md : Option Json) (b : Bool)
    (k : String) (hk : k ≠ folder) :
    dictFind (posterStep D cache folder md b).cache k = dictFind cache k := by
  rcases md with _ | m
  · rfl
  · rcases posterStep_cases D cache folder m b with h | ⟨path, h⟩ <;> rw [h]
    exact dictFind_dictSet_ne cache folder k _ hk

theorem enrichOne_hit (L : String → Option String → Option (List (String × Json)))
    (D : Json → String → Option String) (now : String)
    (cache : List (String × Json)) (folder : String) (m : Json)
    (hm : dictFind cache folder = some m) (ht : jTruthy m = true)
    (hl : jHasKey m "last_fetched" = true) :
    enrichOne L D now cache folder = posterStep D cache folder (some m) false := by
  simp [enrichOne, hm, ht, hl]

theorem enrichOne_fetchCalled_of_none
    (L : String → Option String → Option (List (String × Json)))
    (D : Json → String → Option String) (now : String)
    (cache : List (String × Json)) (folder : String)
    (hc : dictFind cache folder = none) :
    (enrichOne L D now cache folder).fetchCalled = true := by
  simp only [enrichOne, hc, Option.map_none', Option.getD_none, Bool.false_eq_true,
    if_false]
  rcases fetch_media_metadata_from_omdb L (parse_folder_name folder).1
      (parse_folder_name folder).2 now with _ | mm
  · exact posterStep_fetchCalled D cache folder none true
  · exact posterStep_fetchCalled D _ folder _ true

theorem enrichOne_fetchCalled_of_stale
    (L : String → Option String → Option (List (String × Json)))
    (D : Json → String → Option String) (now : String)
    (cache : List (String × Json)) (folder : String) (m : Json)
    (hc : dictFind cache folder = some m)
    (hg : (jTruthy m && jHasKey m "last_fetched") = false) :
    (enrichOne L D now cache folder).fetchCalled = true := by
  simp only [enrichOne, hc, Option.map_some', Option.getD_some, hg, Bool.false_eq_true,
    if_false]
  rcases fetch_media_metadata_from_omdb L (parse_folder_name folder).1
      (parse_folder_name folder).2 now with _ | mm
  · exact posterStep_fetchCalled D cache folder none true
  · exact posterStep_fetchCalled D _ folder _ true

theorem enrichOne_cache_other
    (L : String → Option String → Option (List (String × Json)))
    (D : Json → String → Option String) (now : String)
    (cache : List (String × Json)) (folder : String) (k : String) (hk : k ≠ folder) :
    dictFind (enrichOne L D now cache folder).cache k = dictFind cache k := by
  rcases hc : dictFind cache folder with _ | m
  · simp only [enrichOne, hc, Option.map_none', Option.getD_none, Bool.false_eq_true,
      if_false]
    rcases fetch_media_metadata_from_omdb L (parse_folder_name folder).1
        (parse_folder_name folder).2 now with _ | mm
    · exact posterStep_cache_other D cache folder none true k hk
    · rw [posterStep_cache_other D _ folder _ true k hk]
      exact dictFind_dictSet_ne cache folder k _ hk
  · cases hg : (jTruthy m && jHasKey m "last_fetched")
    · simp only [enrichOne, hc, Option.map_some', Option.getD_some, hg,
        Bool.false_eq_true, if_false]
      rcases fetch_media_metadata_from_omdb L (parse_folder_name folder).1
          (parse_folder_name folder).2 now with _ | mm
      · exact posterStep_cache_other D cache folder none true k hk
      · rw [posterStep_cache_other D _ folder _ true k hk]
        exact dictFind_dictSet_ne cache folder k _ hk
    · simp only [enrichOne, hc, Option.map_some', Option.getD_some, hg, if_true]
      exact posterStep_cache_other D cache folder (some m) false k hk

/-! ### Claim C5 -/

/-- C5: For every added folder name during a scan: if a MediaRecord
already exists in the cache for that exact folder name and has a
populated fetch timestamp (`last_fetched`), it is reused with no OMDb
lookup call - the record the pipeline uses is that cached record,
possibly extended with a freshly downloaded local poster path; the
lookup call is made exactly when no such record exists.  Age is never
consulted, so cache entries never expire. -/
theorem cache_hit_skips_lookup
    (L : String → Option String → Option (List (String × Json)))
    (D : Json → String → Option String) (now : String)
    (cache : List (String × Json)) (folder : String) :
    ((enrichOne L D now cache folder).fetchCalled = true ↔
       ¬ ∃ m, dictFind cache folder = some m ∧ jTruthy m = true ∧
              jHasKey m "last_fetched" = true)
  ∧ (∀ m, dictFind cache folder = some m → jTruthy m = true →
       jHasKey m "last_fetched" = true →
       (enrichOne L D now cache folder).fetchCalled = false ∧
       ∃ r, (enrichOne L D now cache folder).usedRecord = some r ∧
            (r = m ∨ ∃ path, r = jSet m "local_poster_path" (Json.str path))) := by
  constructor
  · constructor
    · intro hf
      rintro ⟨m, hm, ht, hl⟩
      rw [enrichOne_hit L D now cache folder m hm ht hl,
        posterStep_fetchCalled] at hf
      cases hf
    · intro hno
      rcases hc : dictFind cache folder with _ | m
      · exact enrichOne_fetchCalled_of_none L D now cache folder hc
      · refine enrichOne_fetchCalled_of_stale L D now cache folder m hc ?_
        cases hg : (jTruthy m && jHasKey m "last_fetched")
        · rfl
        · exfalso
          rw [Bool.and_eq_true] at hg
          exact hno ⟨m, hc, hg.1, hg.2⟩
  · intro m hm ht hl
    rw [enrichOne_hit L D now cache folder m hm ht hl]
    refine ⟨posterStep_fetchCalled D cache folder (some m) false, ?_⟩
    rcases posterStep_cases D cache folder m false with h | ⟨path, h⟩ <;> rw [h]
    · exact ⟨m, rfl, Or.inl rfl⟩
    · exact ⟨_, rfl, Or.inr ⟨path, rfl⟩⟩

/-- Witness for C5: a cached record with a fetch timestamp is reused
without a lookup call. -/
theorem cache_hit_skips_lookup_witness :
    (enrichOne (fun _ _ => none) (fun _ _ => none) "t"
        [("F", Json.obj [("last_fetched", Json.str "x")])] "F").fetchCalled = false ∧
    ∃ r, (enrichOne (fun _ _ => none) (fun _ _ => none) "t"
        [("F", Json.obj [("last_fetched", Json.str "x")])] "F").usedRecord = some r ∧
      (r = Json.obj [("last_fetched", Json.str "x")] ∨
       ∃ path, r = jSet (Json.obj [("last_fetched", Json.str "x")])
         "local_poster_path" (Json.str path)) :=
  (cache_hit_skips_lookup (fun _ _ => none) (fun _ _ => none) "t"
      [("F", Json.obj [("last_fetched", Json.str "x")])] "F").2
    (Json.obj [("last_fetched", Json.str "x")]) rfl rfl rfl

/-! ### Lemmas: record fields under updates; fold invariants -/

theorem dictSet_ne_nil {α : Type} (d : List (String × α)) (k : String) (v : α) :
    dictSet d k v ≠ [] := by
  cases d with
  | nil => simp [dictSet]
  | cons p rest =>
    simp only [dictSet]
    by_cases h : p.1 = k <;> simp [h]

theorem jGet_jSet_ne (m : Json) (k k' : String) (v : Json) (h : k' ≠ k) :
    jGet (jSet m k v) k' = jGet m k' := by
  rcases m with _ | _ | _ | _ | _ | fields
  · rfl
  · rfl
  · rfl
  · rfl
  · rfl
  · exact dictFind_dictSet_ne fields k k' v h

theorem jTruthy_jSet (fields : List (String × Json)) (k : String) (v : Json) :
    jTruthy (jSet (Json.obj fields) k v) = true := by
  show (!(dictSet fields k v).isEmpty) = true
  rcases hd : dictSet fields k v with _ | ⟨q, qs⟩
  · exact absurd hd (dictSet_ne_nil fields k v)
  · rfl

theorem jHasKey_obj {m : Json} {k : String} (h : jHasKey m k = true) :
    ∃ fields, m = Json.obj fields := by
  rcases m with _ | _ | _ | _ | _ | fields
  · exact Bool.noConfusion h
  · exact Bool.noConfusion h
  · exact Bool.noConfusion h
  · exact Bool.noConfusion h
  · exact Bool.noConfusion h
  · exact ⟨fields, rfl⟩

theorem foldl_invariant {α β : Type _} (step : β → α → β) (P : β → Prop)
    (h : ∀ st a, P st → P (step st a)) :
    ∀ (l : List α) (st : β), P st → P (l.foldl step st) := by
  intro l
  induction l with
  | nil => exact fun _ hst => hst
  | cons a as ih =>
    intro st hst
    rw [List.foldl_cons]
    exact ih _ (h st a hst)

theorem foldl_invariant_mem {α β : Type _} (step : β → α → β) (P : β → Prop) :
    ∀ (l : List α), (∀ st a, a ∈ l → P st → P (step st a)) →
      ∀ st, P st → P (l.foldl step st) := by
  intro l
  induction l with
  | nil => exact fun _ _ hst => hst
  | cons a as ih =>
    intro h st hst
    rw [List.foldl_cons]
    exact ih (fun st' b hb hP => h st' b (List.mem_cons_of_mem a hb) hP) _
      (h st a (List.mem_cons_self a as) hst)

theorem enrichAdded_cache (L : String → Option String → Option (List (String × Json)))
    (D : Json → String → Option String) (now : String) :
    ∀ (folders : List String) (st : LoopState),
    (enrichAdded L D now st folders).cache =
      folders.foldl (fun c g => (enrichOne L D now c g).cache) st.cache := by
  intro folders
  induction folders with
  | nil => exact fun _ => rfl
  | cons f fs ih =>
    intro st
    show (enrichAdded L D now (enrichStep L D now st f) fs).cache = _
    rw [ih]
    rfl

theorem enrichOne_keeps_record
    (L : String → Option String → Option (List (String × Json)))
    (D : Json → String → Option String) (now : String)
    (c : List (String × Json)) (g folder : String) (v : Option Json)
    (hP : ∃ m, dictFind c folder = some m ∧ jTruthy m = true ∧
          jHasKey m "last_fetched" = true ∧ jGet m "added_timestamp" = v) :
    ∃ m, dictFind (enrichOne L D now c g).cache folder = some m ∧ jTruthy m = true ∧
         jHasKey m "last_fetched" = true ∧ jGet m "added_timestamp" = v := by
  obtain ⟨m, hm, ht, hl, hv⟩ := hP
  by_cases hg : folder = g
  · subst hg
    rw [enrichOne_hit L D now c folder m hm ht hl]
    rcases posterStep_cases D c folder m false with h | ⟨path, h⟩ <;> rw [h]
    · exact ⟨m, hm, ht, hl, hv⟩
    · obtain ⟨fields, rfl⟩ := jHasKey_obj hl
      refine ⟨_, dictFind_dictSet_self _ _ _, jTruthy_jSet fields _ _, ?_, ?_⟩
      · show (jGet (jSet (Json.obj fields) "local_poster_path" (Json.str path))
          "last_fetched").isSome = true
        rw [jGet_jSet_ne _ _ _ _ (by decide)]
        exact hl
      · rw [jGet_jSet_ne _ _ _ _ (by decide)]
        exact hv
  · rw [enrichOne_cache_other L D now c g folder hg]
    exact ⟨m, hm, ht, hl, hv⟩

theorem processRemoved_keeps_record (R : String → Bool) :
    ∀ (folders : List String) (st : List String × List (String × Json)) (folder : String),
      folder ∉ folders →
      dictFind (processRemoved R st folders).2 folder = dictFind st.2 folder := by
  intro folders
  induction folders with
  | nil => exact fun _ _ _ => rfl
  | cons f fs ih =>
    intro st folder hnot
    have hne : folder ≠ f := fun he => hnot (he ▸ List.mem_cons_self f fs)
    have h2 : folder ∉ fs := fun hmem => hnot (List.mem_cons_of_mem f hmem)
    show dictFind (processRemoved R (delete_poster st.1 R f, dictErase st.2 f) fs).2 folder
        = dictFind st.2 folder
    rw [ih _ folder h2]
    exact dictFind_dictErase_ne st.2 f folder hne

theorem processRoot_keeps_record
    (L : String → Option String → Option (List (String × Json)))
    (D : Json → String → Option String) (R : String → Bool) (now : String)
    (old : List (String × PVal)) (cur : List (String × List String))
    (st : LoopState) (root folder : String) (v : Option Json)
    (hnr : folder ∉ setDiff (snapGetOld old root) ((dictFind cur root).getD []))
    (hP : ∃ m, dictFind st.cache folder = some m ∧ jTruthy m = true ∧
          jHasKey m "last_fetched" = true ∧ jGet m "added_timestamp" = v) :
    ∃ m, dictFind (processRoot L D R now old cur st root).cache folder = some m ∧
         jTruthy m = true ∧ jHasKey m "last_fetched" = true ∧
         jGet m "added_timestamp" = v := by
  have hnot : folder ∉ sortStrings (setDiff (snapGetOld old root)
      ((dictFind cur root).getD [])) := fun hmem => hnr (mem_sortStrings.mp hmem)
  obtain ⟨m, h1, h2, h3, h4⟩ := foldl_invariant (fun c g => (enrichOne L D now c g).cache)
    (fun c => ∃ m, dictFind c folder = some m ∧ jTruthy m = true ∧
      jHasKey m "last_fetched" = true ∧ jGet m "added_timestamp" = v)
    (fun c g hc => enrichOne_keeps_record L D now c g folder v hc)
    (sortStrings (setDiff ((dictFind cur root).getD []) (snapGetOld old root)))
    st.cache hP
  refine ⟨m, ?_, h2, h3, h4⟩
  simp only [processRoot]
  rw [processRemoved_keeps_record R _ _ folder hnot]
  dsimp only
  rw [enrichAdded_cache]
  exact h1

/-! ### Claim C6 -/

/-- C6: Once a cache record for a folder name carries an
`added_timestamp`, no subsequent scan changes it: a truthy record with a
populated `last_fetched` stamp whose folder is not removed during the
scan keeps its exact `added_timestamp` value in the scan's final cache.
And the stamp is written exactly at the first successful fetch: when no
record exists for an added folder and the OMDb lookup succeeds, the
stored record's `added_timestamp` is the scan's current time. -/
theorem added_timestamp_stable (inp : ScanInput) (out : ScanResult)
    (cache0 : List (String × Json)) (folder : String) (m : Json) (v : Option Json)
    (hre : read_media_metadata inp.cacheFile = Json.obj cache0)
    (hout : periodic_folder_scan inp = some out)
    (hm : dictFind cache0 folder = some m)
    (ht : jTruthy m = true) (hl : jHasKey m "last_fetched" = true)
    (hv : jGet m "added_timestamp" = v)
    (hnr : ∀ e ∈ out.perRoot, folder ∉ e.2.2) :
    (∃ m', dictFind out.cache folder = some m' ∧ jGet m' "added_timestamp" = v)
  ∧ (∀ (cache : List (String × Json)) (g : String) (payload : List (String × Json)),
       dictFind cache g = none →
       inp.lookupOmdb (parse_folder_name g).1 (parse_folder_name g).2 = some payload →
       ∃ r, dictFind (enrichOne inp.lookupOmdb inp.downloadPoster inp.now cache g).cache g
              = some r ∧ jGet r "added_timestamp" = some (Json.str inp.now)) := by
  obtain ⟨c0', hre', heq⟩ := periodic_folder_scan_eq _ _ hout
  rw [hre] at hre'
  injection hre' with hc0
  subst hc0
  subst heq
  constructor
  · have hmemnr : ∀ root ∈ inp.monitored,
        folder ∉ setDiff (prevSet inp root) (curSet inp root) := by
      intro root hroot
      refine hnr (root, setDiff (curSet inp root) (prevSet inp root),
                  setDiff (prevSet inp root) (curSet inp root)) ?_
      rw [scanCore_perRoot]
      exact List.mem_map_of_mem _ hroot
    have hstep : ∀ (st : LoopState) (root : String), root ∈ inp.monitored →
        (∃ m', dictFind st.cache folder = some m' ∧ jTruthy m' = true ∧
          jHasKey m' "last_fetched" = true ∧ jGet m' "added_timestamp" = v) →
        (∃ m', dictFind (processRoot inp.lookupOmdb inp.downloadPoster inp.removeFails
            inp.now (read_folder_state inp.snapFile)
            (inp.monitored.map (fun root => (root, mkSet (inp.listing root)))) st
            root).cache folder = some m' ∧ jTruthy m' = true ∧
          jHasKey m' "last_fetched" = true ∧ jGet m' "added_timestamp" = v) := by
      intro st root hroot hP
      refine processRoot_keeps_record _ _ _ _ _ _ st root folder v ?_ hP
      have hcur : (dictFind (inp.monitored.map
          (fun root => (root, mkSet (inp.listing root)))) root).getD []
          = curSet inp root := by
        rw [dictFind_map_self _ _ _ hroot]
        rfl
      rw [hcur]
      exact hmemnr root hroot
    obtain ⟨m', h1, _, _, h4⟩ := foldl_invariant_mem _ _ inp.monitored hstep
      ⟨[], 0, 0, false, cache0, inp.posters, 0⟩ ⟨m, hm, ht, hl, hv⟩
    exact ⟨m', h1, h4⟩
  · intro cache g payload hnone hpay
    have hfetch : fetch_media_metadata_from_omdb inp.lookupOmdb (parse_folder_name g).1
        (parse_folder_name g).2 inp.now =
        some (Json.obj (payload ++ [("last_fetched", Json.str inp.now)])) := by
      rw [fetch_media_metadata_from_omdb, hpay]
      rfl
    have hrun : enrichOne inp.lookupOmdb inp.downloadPoster inp.now cache g =
        posterStep inp.downloadPoster
          (dictSet cache g (jSet (Json.obj (payload ++ [("last_fetched", Json.str inp.now)]))
            "added_timestamp" (Json.str inp.now))) g
          (some (jSet (Json.obj (payload ++ [("last_fetched", Json.str inp.now)]))
            "added_timestamp" (Json.str inp.now))) true := by
      simp only [enrichOne, hnone, Option.map_none', Option.getD_none,
        Bool.false_eq_true, if_false, hfetch]
    rw [hrun]
    rcases posterStep_cases inp.downloadPoster
        (dictSet cache g (jSet (Json.obj (payload ++ [("last_fetched", Json.str inp.now)]))
          "added_timestamp" (Json.str inp.now))) g
        (jSet (Json.obj (payload ++ [("last_fetched", Json.str inp.now)]))
          "added_timestamp" (Json.str inp.now)) true with h | ⟨path, h⟩ <;> rw [h]
    · refine ⟨_, dictFind_dictSet_self _ _ _, ?_⟩
      exact dictFind_dictSet_self _ _ _
    · refine ⟨_, dictFind_dictSet_self _ _ _, ?_⟩
      rw [jGet_jSet_ne _ _ _ _ (by decide)]
      exact dictFind_dictSet_self _ _ _

/-- Witness for C6: the pre-existing record for folder `"F"` keeps its
`added_timestamp` across the concrete scan, and a fresh successful
fetch stamps the scan's own time. -/
theorem added_timestamp_stable_witness :
    (∃ m', dictFind c6Out.cache "F" = some m' ∧
      jGet m' "added_timestamp" = some (Json.str "a"))
  ∧ (∀ (cache : List (String × Json)) (g : String) (payload : List (String × Json)),
       dictFind cache g = none →
       c6In.lookupOmdb (parse_folder_name g).1 (parse_folder_name g).2 = some payload →
       ∃ r, dictFind (enrichOne c6In.lookupOmdb c6In.downloadPoster c6In.now cache g).cache g
              = some r ∧ jGet r "added_timestamp" = some (Json.str c6In.now)) :=
  added_timestamp_stable c6In c6Out [("F", recF)] "F" recF (some (Json.str "a"))
    rfl rfl rfl rfl rfl rfl (by decide)

/-! ### Lemmas: processing removed folders -/

theorem processRemoved_posters_subset (R : String → Bool) :
    ∀ (folders : List String) (st : List String × List (String × Json)),
      ∀ p ∈ (processRemoved R st folders).1, p ∈ st.1 := by
  intro folders
  induction folders with
  | nil => exact fun _ _ hp => hp
  | cons f fs ih =>
    intro st p hp
    have hstep := ih (delete_poster st.1 R f, dictErase st.2 f) p hp
    exact List.mem_of_mem_filter hstep

theorem processRemoved_cache_none (R : String → Bool) :
    ∀ (folders : List String) (st : List String × List (String × Json)) (k : String),
      dictFind st.2 k = none →
      dictFind (processRemoved R st folders).2 k = none := by
  intro folders
  induction folders with
  | nil => exact fun _ _ h => h
  | cons f fs ih =>
    intro st k hk
    refine ih (delete_poster st.1 R f, dictErase st.2 f) k ?_
    by_cases hf : k = f
    · subst hf
      exact dictFind_dictErase_self st.2 k
    · rw [dictFind_dictErase_ne st.2 f k hf]
      exact hk

theorem processRemoved_cache_erased (R : String → Bool) :
    ∀ (folders : List String) (st : List String × List (String × Json)) (f : String),
      f ∈ folders → dictFind (processRemoved R st folders).2 f = none := by
  intro folders
  induction folders with
  | nil => intro _ _ h; cases h
  | cons g gs ih =>
    intro st f hf
    show dictFind (processRemoved R (delete_poster st.1 R g, dictErase st.2 g) gs).2 f = none
    rcases List.mem_cons.mp hf with rfl | hf'
    · exact processRemoved_cache_none R gs _ f (dictFind_dictErase_self st.2 f)
    · exact ih _ f hf'

theorem processRemoved_poster_deleted (R : String → Bool) :
    ∀ (folders : List String) (st : List String × List (String × Json))
      (p f : String), f ∈ folders →
      strStartsWith p (sanitizeFolderName f) = true → R p = false →
      p ∉ (processRemoved R st folders).1 := by
  intro folders
  induction folders with
  | nil => intro _ _ _ h; cases h
  | cons g gs ih =>
    intro st p f hf hpre hfail hmem
    rcases List.mem_cons.mp hf with rfl | hf'
    · have hsub := processRemoved_posters_subset R gs
        (delete_poster st.1 R f, dictErase st.2 f) p hmem
      have hkeep := List.of_mem_filter hsub
      rw [hpre, hfail] at hkeep
      cases hkeep
    · exact ih (delete_poster st.1 R g, dictErase st.2 g) p f hf' hpre hfail hmem

/-! ### Claim C7 -/

/-- C7: For every removed folder name during a scan: every stored
poster file whose name starts with the removed folder's sanitized name
is deleted when its removal does not fail (all prefix matches), the
folder's MediaRecord is deleted from the cache if present, and a
failure to delete a file does not abort the processing of the remaining
removed folders - the cache eviction and poster deletions of every
folder hold for an arbitrary failure oracle `R`. -/
theorem removed_folder_cleanup (R : String → Bool) (posters : List String)
    (cache : List (String × Json)) (folders : List String) :
    (∀ p ∈ posters, ∀ f ∈ folders,
       strStartsWith p (sanitizeFolderName f) = true → R p = false →
       p ∉ (processRemoved R (posters, cache) folders).1)
  ∧ (∀ f ∈ folders, dictFind (processRemoved R (posters, cache) folders).2 f = none)
  ∧ (∀ k, k ∉ folders →
       dictFind (processRemoved R (posters, cache) folders).2 k = dictFind cache k) :=
  ⟨fun p _ f hf hpre hfail =>
      processRemoved_poster_deleted R folders (posters, cache) p f hf hpre hfail,
   fun f hf => processRemoved_cache_erased R folders (posters, cache) f hf,
   fun k hk => processRemoved_keeps_record R folders (posters, cache) k hk⟩

/-- Witness for C7: removing folder `"A/B"` deletes the prefix-matching
poster `"A_B.jpg"`, evicts the cache record, and leaves other keys; all
under a concrete (non-failing) removal oracle. -/
theorem removed_folder_cleanup_witness :
    "A_B.jpg" ∉ (processRemoved (fun _ => false)
        (["A_B.jpg", "keep.jpg"], [("A/B", Json.obj [("title", Json.str "X")])])
        ["A/B"]).1
  ∧ dictFind (processRemoved (fun _ => false)
        (["A_B.jpg", "keep.jpg"], [("A/B", Json.obj [("title", Json.str "X")])])
        ["A/B"]).2 "A/B" = none
  ∧ dictFind (processRemoved (fun _ => false)
        (["A_B.jpg", "keep.jpg"], [("A/B", Json.obj [("title", Json.str "X")])])
        ["A/B"]).2 "other"
      = dictFind [("A/B", Json.obj [("title", Json.str "X")])] "other" :=
  ⟨(removed_folder_cleanup (fun _ => false) ["A_B.jpg", "keep.jpg"]
      [("A/B", Json.obj [("title", Json.str "X")])] ["A/B"]).1
      "A_B.jpg" (by decide) "A/B" (by decide) (by decide) rfl,
   (removed_folder_cleanup (fun _ => false) ["A_B.jpg", "keep.jpg"]
      [("A/B", Json.obj [("title", Json.str "X")])] ["A/B"]).2.1
      "A/B" (by decide),
   (removed_folder_cleanup (fun _ => false) ["A_B.jpg", "keep.jpg"]
      [("A/B", Json.obj [("title", Json.str "X")])] ["A/B"]).2.2
      "other" (by decide)⟩

/-! ### Lemmas: effects of a scan -/

theorem photoEffects_aux (s : Nat → Bool) :
    ∀ (l : List Nat) (acc : List Effect), (∀ e ∈ acc, isSendEffect e = true) →
      ∀ e ∈ l.foldr (fun i acc => Effect.sendPhoto (s i) ::
        (if s i then acc else Effect.sendText :: acc)) acc, isSendEffect e = true := by
  intro l
  induction l with
  | nil => exact fun acc h => h
  | cons i is ih =>
    intro acc hacc e he
    rw [List.foldr_cons] at he
    rcases List.mem_cons.mp he with rfl | he'
    · rfl
    · by_cases hs : s i = true
      · rw [if_pos hs] at he'
        exact ih acc hacc e he'
      · rw [if_neg hs] at he'
        rcases List.mem_cons.mp he' with rfl | he''
        · rfl
        · exact ih acc hacc e he''

theorem photoEffects_send_only (s : Nat → Bool) (n : Nat) :
    ∀ e ∈ photoEffects s n, isSendEffect e = true :=
  photoEffects_aux s (List.range n) [] (fun e h => absurd h (List.not_mem_nil e))

theorem textEffects_send_only (h s t : Bool) :
    ∀ e ∈ textEffects h s t, isSendEffect e = true := by
  intro e he
  unfold textEffects at he
  by_cases ht : t = true
  · rw [if_pos ht] at he
    rw [List.mem_singleton.mp he]
    rfl
  · rw [if_neg ht] at he
    by_cases hh : (h || s) = true
    · rw [if_pos hh] at he
      rw [List.mem_singleton.mp he]
      rfl
    · rw [if_neg hh] at he
      cases he

/-! ### Claim C9 -/

/-- C9: At the end of every scan the updated FolderSnapshot is
persisted and then the updated MediaMetadataCache, in that order, as
the final two effects of the scan; everything preceding them is a
message send.  Persistence does not depend on notification success:
changing the send-outcome oracle leaves the persisted snapshot, the
persisted cache, and the final in-memory cache and poster state
unchanged. -/
theorem persist_after_notify_independent (inp : ScanInput) (out : ScanResult)
    (hout : periodic_folder_scan inp = some out) :
    (∃ pre, out.effects = pre ++ [Effect.persistSnapshot out.snapFileWritten,
                                   Effect.persistMetadata out.cacheFileWritten]
       ∧ ∀ e ∈ pre, isSendEffect e = true)
  ∧ (∀ (sendOk' : Nat → Bool) (out' : ScanResult),
       periodic_folder_scan { inp with sendOk := sendOk' } = some out' →
       out'.snapFileWritten = out.snapFileWritten ∧
       out'.cacheFileWritten = out.cacheFileWritten ∧
       out'.cache = out.cache ∧ out'.posters = out.posters) := by
  obtain ⟨c0, hre, rfl⟩ := periodic_folder_scan_eq _ _ hout
  constructor
  · refine ⟨_, rfl, ?_⟩
    intro e he
    rcases List.mem_append.mp he with h | h
    · exact photoEffects_send_only _ _ e h
    · exact textEffects_send_only _ _ _ e h
  · intro sendOk' out' hout'
    obtain ⟨c0', hre', rfl⟩ := periodic_folder_scan_eq _ _ hout'
    have hcf : read_media_metadata ({ inp with sendOk := sendOk' } : ScanInput).cacheFile
        = Json.obj c0 := hre
    rw [hcf] at hre'
    injection hre' with hc
    subst hc
    exact ⟨rfl, rfl, rfl, rfl⟩

/-- Witness for C9 at the concrete sample scan. -/
theorem persist_after_notify_independent_witness :
    (∃ pre, sampleRun1.effects = pre ++
        [Effect.persistSnapshot sampleRun1.snapFileWritten,
         Effect.persistMetadata sampleRun1.cacheFileWritten]
       ∧ ∀ e ∈ pre, isSendEffect e = true)
  ∧ (∀ (sendOk' : Nat → Bool) (out' : ScanResult),
       periodic_folder_scan { sampleIn with sendOk := sendOk' } = some out' →
       out'.snapFileWritten = sampleRun1.snapFileWritten ∧
       out'.cacheFileWritten = sampleRun1.cacheFileWritten ∧
       out'.cache = sampleRun1.cache ∧ out'.posters = sampleRun1.posters) :=
  persist_after_notify_independent sampleIn sampleRun1 rfl

/-! ### Lemmas: the regex engine model -/

theorem mem_of_getLast?_eq {l : List Char} {c : Char} (h : l.getLast? = some c) :
    c ∈ l := by
  obtain ⟨hne, he⟩ := List.mem_getLast?_eq_getLast (Option.mem_def.mpr h)
  rw [he]
  exact List.getLast_mem hne

theorem dropWhile_all (p : Char → Bool) (w l : List Char)
    (hw : ∀ c ∈ w, p c = true) :
    (w ++ l).dropWhile p = l.dropWhile p := by
  induction w with
  | nil => rfl
  | cons c cs ih =>
    have hc : p c = true := hw c (by simp)
    simp only [List.cons_append, List.dropWhile_cons, hc, if_true]
    exact ih (fun d hd => hw d (by simp [hd]))

theorem dropWhile_ne_nil_of_last (p : Char → Bool) (l : List Char) (c : Char)
    (hl : l.getLast? = some c) (hc : p c = false) : l.dropWhile p ≠ [] := by
  intro hnil
  have h2 := List.dropWhile_eq_nil_iff.mp hnil c (mem_of_getLast?_eq hl)
  simp [hc] at h2

theorem dropWhile_append_of_ne_nil (p : Char → Bool) (l₁ l₂ : List Char)
    (h : l₁.dropWhile p ≠ []) :
    (l₁ ++ l₂).dropWhile p = l₁.dropWhile p ++ l₂ := by
  induction l₁ with
  | nil => exact absurd rfl h
  | cons c cs ih =>
    by_cases hc : p c = true
    · rw [List.dropWhile_cons, if_pos hc] at h
      rw [List.cons_append, List.dropWhile_cons, if_pos hc, List.dropWhile_cons,
        if_pos hc]
      exact ih h
    · rw [List.cons_append, List.dropWhile_cons, if_neg hc, List.dropWhile_cons,
        if_neg hc]
      rfl

theorem getLast?_of_suffix {l₁ l₂ : List Char} (h : l₁ <:+ l₂) (hne : l₁ ≠ []) :
    l₂.getLast? = l₁.getLast? := by
  obtain ⟨pre, rfl⟩ := h
  exact List.getLast?_append_of_ne_nil pre hne

theorem isYearParen_eq {l : List Char} (h : isYearParen l = true) :
    ∃ d1 d2 d3 d4, l = ['(', d1, d2, d3, d4, ')'] ∧ d1.isDigit = true ∧
      d2.isDigit = true ∧ d3.isDigit = true ∧ d4.isDigit = true := by
  unfold isYearParen at h
  split at h
  · rename_i d1 d2 d3 d4
    rw [Bool.and_eq_true, Bool.and_eq_true, Bool.and_eq_true] at h
    exact ⟨d1, d2, d3, d4, rfl, h.1.1.1, h.1.1.2, h.1.2, h.2⟩
  · cases h

theorem restSepYear_eq {l : List Char} (h : restSepYear l = true) :
    (∃ d1 d2 d3 d4, l = [d1, d2, d3, d4] ∧ d1.isDigit = true ∧ d2.isDigit = true ∧
       d3.isDigit = true ∧ d4.isDigit = true)
  ∨ (∃ c d1 d2 d3 d4, l = [c, d1, d2, d3, d4] ∧ isSep c = true ∧ d1.isDigit = true ∧
       d2.isDigit = true ∧ d3.isDigit = true ∧ d4.isDigit = true) := by
  unfold restSepYear at h
  split at h
  · rename_i d1 d2 d3 d4
    rw [Bool.and_eq_true, Bool.and_eq_true, Bool.and_eq_true] at h
    exact Or.inl ⟨d1, d2, d3, d4, rfl, h.1.1.1, h.1.1.2, h.1.2, h.2⟩
  · rename_i c d1 d2 d3 d4
    rw [Bool.and_eq_true, Bool.and_eq_true, Bool.and_eq_true, Bool.and_eq_true] at h
    exact Or.inr ⟨c, d1, d2, d3, d4, rfl, h.1.1.1.1, h.1.1.1.2, h.1.1.2, h.1.2, h.2⟩
  · cases h

theorem lazySplit_none (ok : List Char → Bool) :
    ∀ (s g : List Char), (∀ rest, rest <:+ s → ok rest = false) →
      lazySplit ok g s = none := by
  intro s
  induction s with
  | nil =>
    intro g h
    unfold lazySplit
    rw [h [] List.nil_suffix]
    rfl
  | cons c cs ih =>
    intro g h
    unfold lazySplit
    rw [h (c :: cs) (List.suffix_refl _)]
    simp only [Bool.false_eq_true, if_false]
    by_cases hc : c = '
'
    · rw [if_pos hc]
    · rw [if_neg hc]
      exact ih (g ++ [c]) (fun rest hrest =>
        h rest (hrest.trans (List.suffix_cons c cs)))

theorem length_four {l : List Char} (h : l.length = 4) :
    ∃ a b c d, l = [a, b, c, d] := by
  rcases l with _ | ⟨a, l⟩
  · simp at h
  rcases l with _ | ⟨b, l⟩
  · simp at h
  rcases l with _ | ⟨c, l⟩
  · simp at h
  rcases l with _ | ⟨d, l⟩
  · simp at h
  rcases l with _ | ⟨e, l⟩
  · exact ⟨a, b, c, d, rfl⟩
  · simp at h

theorem restParenYear_false_of_last (r : List Char) (c : Char)
    (hl : r.getLast? = some c) (hc : c ≠ ')') : restParenYear r = false := by
  cases hres : restParenYear r
  · rfl
  · exfalso
    unfold restParenYear at hres
    obtain ⟨d1, d2, d3, d4, hshape, -⟩ := isYearParen_eq hres
    have hne : r.dropWhile pyIsSpace ≠ [] := by rw [hshape]; simp
    have heq := getLast?_of_suffix (List.dropWhile_suffix pyIsSpace) hne
    rw [hl, hshape] at heq
    rw [show (['(', d1, d2, d3, d4, ')'] : List Char).getLast? = some ')' from rfl]
      at heq
    exact hc (Option.some.inj heq)

theorem restSepYear_false_of_long (r : List Char) (h : 6 ≤ r.length) :
    restSepYear r = false := by
  cases hres : restSepYear r
  · rfl
  · exfalso
    rcases restSepYear_eq hres with ⟨d1, d2, d3, d4, hshape, -⟩ |
      ⟨c, d1, d2, d3, d4, hshape, -⟩ <;> rw [hshape] at h <;> simp at h

theorem restParenYear_wy (w y : List Char) (hw : ∀ c ∈ w, pyIsSpace c = true)
    (hy : y.length = 4) (hyd : ∀ c ∈ y, c.isDigit = true) :
    restParenYear (w ++ ('(' :: (y ++ [')']))) = true := by
  unfold restParenYear
  rw [dropWhile_all pyIsSpace w _ hw, List.dropWhile_cons, if_neg (by decide)]
  obtain ⟨d1, d2, d3, d4, rfl⟩ := length_four hy
  simp [isYearParen, hyd d1 (by simp), hyd d2 (by simp), hyd d3 (by simp),
    hyd d4 (by simp)]

theorem restSepYear_sep (s : Char) (y : List Char) (hs : isSep s = true)
    (hy : y.length = 4) (hyd : ∀ c ∈ y, c.isDigit = true) :
    restSepYear (s :: y) = true := by
  obtain ⟨d1, d2, d3, d4, rfl⟩ := length_four hy
  simp [restSepYear, hs, hyd d1 (by simp), hyd d2 (by simp), hyd d3 (by simp),
    hyd d4 (by simp)]

theorem restSepYear_nosep (y : List Char) (hy : y.length = 4)
    (hyd : ∀ c ∈ y, c.isDigit = true) : restSepYear y = true := by
  obtain ⟨d1, d2, d3, d4, rfl⟩ := length_four hy
  simp [restSepYear, hyd d1 (by simp), hyd d2 (by simp), hyd d3 (by simp),
    hyd d4 (by simp)]

theorem lazySplit_eager (ok : List Char → Bool) (rest : List Char)
    (hok : ok rest = true) :
    ∀ (t g : List Char), '
' ∉ t →
      (∀ t', t' <:+ t → t' ≠ [] → ok (t' ++ rest) = false) →
      lazySplit ok g (t ++ rest) = some (g ++ t, rest) := by
  intro t
  induction t with
  | nil =>
    intro g _ _
    unfold lazySplit
    rw [List.nil_append, hok]
    simp
  | cons c cs ih =>
    intro g hnl hfail
    rw [List.cons_append]
    unfold lazySplit
    have hf : ok (c :: (cs ++ rest)) = false := by
      rw [← List.cons_append]
      exact hfail (c :: cs) (List.suffix_refl _) (by simp)
    rw [hf, if_neg Bool.false_ne_true]
    dsimp only
    rw [if_neg (fun hc => hnl (List.mem_cons.mpr (Or.inl hc.symm)))]
    rw [ih (g ++ [c]) (fun hm => hnl (List.mem_cons_of_mem c hm))
      (fun t' ht' hne => hfail t' (ht'.trans (List.suffix_cons c cs)) hne)]
    simp

theorem lazySplit_paren_none_of_last (full : List Char) (c : Char)
    (hl : full.getLast? = some c) (hc : c ≠ ')') (g : List Char) :
    lazySplit restParenYear g full = none := by
  refine lazySplit_none restParenYear full g (fun r hr => ?_)
  rcases eq_or_ne r [] with rfl | hne
  · rfl
  · exact restParenYear_false_of_last r c
      ((getLast?_of_suffix hr hne).symm.trans hl) hc

theorem parse_rule_paren (t w y : List Char)
    (hy : y.length = 4) (hyd : ∀ c ∈ y, c.isDigit = true)
    (hw : ∀ c ∈ w, pyIsSpace c = true)
    (hnl : '
' ∉ t)
    (hlast : t.getLast?.all (fun c => !pyIsSpace c) = true) :
    parseFolderChars (t ++ w ++ ('(' :: (y ++ [')']))) = (pyStrip t, some y) := by
  have hok : restParenYear (w ++ ('(' :: (y ++ [')']))) = true :=
    restParenYear_wy w y hw hy hyd
  have hfail : ∀ t', t' <:+ t → t' ≠ [] →
      restParenYear (t' ++ (w ++ ('(' :: (y ++ [')'])))) = false := by
    intro t' ht' hne
    cases hres : restParenYear (t' ++ (w ++ ('(' :: (y ++ [')']))))
    · rfl
    · exfalso
      unfold restParenYear at hres
      obtain ⟨d1, d2, d3, d4, hshape, -⟩ := isYearParen_eq hres
      have hlast' := getLast?_of_suffix ht' hne
      obtain ⟨c, hc⟩ : ∃ c, t'.getLast? = some c := by
        cases hgl : t'.getLast? with
        | none => exact absurd (List.getLast?_eq_none_iff.mp hgl) hne
        | some c => exact ⟨c, rfl⟩
      have hcns : pyIsSpace c = false := by
        rw [hlast', hc] at hlast
        simpa [Option.all] using hlast
      have hdw : t'.dropWhile pyIsSpace ≠ [] :=
        dropWhile_ne_nil_of_last _ _ _ hc hcns
      rw [dropWhile_append_of_ne_nil _ _ _ hdw] at hshape
      have hpos := List.length_pos.mpr hdw
      have hlen := congrArg List.length hshape
      simp only [List.length_append, List.length_cons, List.length_nil, hy]
        at hlen
      omega
  have hsplit := lazySplit_eager restParenYear (w ++ ('(' :: (y ++ [')'])))
    hok t [] hnl hfail
  have hyear : yearOfParenRest (w ++ ('(' :: (y ++ [')']))) = y := by
    unfold yearOfParenRest
    rw [dropWhile_all pyIsSpace w _ hw, List.dropWhile_cons, if_neg (by decide)]
    simp only [List.drop_succ_cons, List.drop_zero]
    rw [← hy, List.take_left]
  unfold parseFolderChars
  rw [List.append_assoc, hsplit]
  dsimp only
  rw [hyear]
  simp

theorem parse_rule_sep (t : List Char) (s : Char) (y : List Char)
    (hs : isSep s = true) (hy : y.length = 4) (hyd : ∀ c ∈ y, c.isDigit = true)
    (hnl : '
' ∉ t) :
    parseFolderChars (t ++ (s :: y)) = (pyStrip (t.map replaceSeps), some y) := by
  obtain ⟨d1, d2, d3, d4, hy4⟩ := length_four hy
  have hd4 : d4.isDigit = true := hyd d4 (by rw [hy4]; simp)
  have hlastfull : (t ++ (s :: y)).getLast? = some d4 := by
    rw [List.getLast?_append_of_ne_nil t (by simp), hy4]
    rfl
  have hp1 : lazySplit restParenYear [] (t ++ (s :: y)) = none :=
    lazySplit_paren_none_of_last _ d4 hlastfull
      (fun h => by rw [h] at hd4; exact absurd hd4 (by decide)) []
  have hfail2 : ∀ t', t' <:+ t → t' ≠ [] →
      restSepYear (t' ++ (s :: y)) = false := by
    intro t' ht' hne
    apply restSepYear_false_of_long
    have hpos := List.length_pos.mpr hne
    simp only [List.length_append, List.length_cons, hy]
    omega
  have hsplit := lazySplit_eager restSepYear (s :: y)
    (restSepYear_sep s y hs hy hyd) t [] hnl hfail2
  have hyr : yearOfSepRest (s :: y) = y := by
    unfold yearOfSepRest
    rw [if_pos (by simp [hy])]
    rfl
  unfold parseFolderChars
  rw [hp1]
  dsimp only
  rw [hsplit]
  dsimp only
  rw [hyr]
  simp

theorem parse_rule_sep_none (t y : List Char)
    (hy : y.length = 4) (hyd : ∀ c ∈ y, c.isDigit = true)
    (hnl : '
' ∉ t)
    (hlast : t.getLast?.all (fun c => !isSep c) = true) :
    parseFolderChars (t ++ y) = (pyStrip (t.map replaceSeps), some y) := by
  obtain ⟨d1, d2, d3, d4, hy4⟩ := length_four hy
  have hd4 : d4.isDigit = true := hyd d4 (by rw [hy4]; simp)
  have hlastfull : (t ++ y).getLast? = some d4 := by
    rw [List.getLast?_append_of_ne_nil t (by rw [hy4]; simp), hy4]
    rfl
  have hp1 : lazySplit restParenYear [] (t ++ y) = none :=
    lazySplit_paren_none_of_last _ d4 hlastfull
      (fun h => by rw [h] at hd4; exact absurd hd4 (by decide)) []
  have hfail2 : ∀ t', t' <:+ t → t' ≠ [] → restSepYear (t' ++ y) = false := by
    intro t' ht' hne
    rcases t' with _ | ⟨c, t''⟩
    · exact absurd rfl hne
    rcases t'' with _ | ⟨c2, t'''⟩
    · have hcl : t.getLast? = some c := by
        rw [getLast?_of_suffix ht' hne]
        rfl
      have hcs : isSep c = false := by
        rw [hcl] at hlast
        simpa [Option.all] using hlast
      rw [hy4]
      simp [restSepYear, hcs]
    · apply restSepYear_false_of_long
      simp only [List.length_append, List.length_cons, hy]
      omega
  have hsplit := lazySplit_eager restSepYear y
    (restSepYear_nosep y hy hyd) t [] hnl hfail2
  have hyr : yearOfSepRest y = y := by
    unfold yearOfSepRest
    rw [if_neg (by simp [hy])]
  unfold parseFolderChars
  rw [hp1]
  dsimp only
  rw [hsplit]
  dsimp only
  rw [hyr]
  simp

theorem parse_rule_none (cs : List Char) (hd : ∀ c ∈ cs, c.isDigit = false) :
    parseFolderChars cs = (pyStrip cs, none) := by
  have h1 : ∀ r, r <:+ cs → restParenYear r = false := by
    intro r hr
    cases hres : restParenYear r
    · rfl
    · exfalso
      unfold restParenYear at hres
      obtain ⟨d1, d2, d3, d4, hshape, hd1, -⟩ := isYearParen_eq hres
      have hm : d1 ∈ r := by
        refine (List.dropWhile_suffix pyIsSpace).subset ?_
        rw [hshape]
        simp
      have := hd d1 (hr.subset hm)
      simp [hd1] at this
  have h2 : ∀ r, r <:+ cs → restSepYear r = false := by
    intro r hr
    cases hres : restSepYear r
    · rfl
    · exfalso
      rcases restSepYear_eq hres with ⟨d1, d2, d3, d4, hshape, hd1, -⟩ |
        ⟨c, d1, d2, d3, d4, hshape, -, hd1, -⟩
      · have hm : d1 ∈ r := by rw [hshape]; simp
        have := hd d1 (hr.subset hm)
        simp [hd1] at this
      · have hm : d1 ∈ r := by rw [hshape]; simp
        have := hd d1 (hr.subset hm)
        simp [hd1] at this
  unfold parseFolderChars
  rw [lazySplit_none restParenYear cs [] h1]
  dsimp only
  rw [lazySplit_none restSepYear cs [] h2]

/-- C4: title/year extraction applies three rules in order with the first
match winning.  Concretely, "Inception (2010)" parses to ("Inception",
"2010"), "The.Matrix.1999" to ("The Matrix", "1999") and "Random Folder"
to ("Random Folder", none).  In general: a name `t ++ w ++ "(" ++ y ++ ")"`
with `y` four digits, `w` whitespace and `t` not ending in whitespace
yields the trimmed `t` and year `y`; failing that, a trailing four-digit
year `y` preceded by one separator from `[._-]` (or by none, when `t` does
not end in a separator) yields `t` with `.` and `-` replaced by spaces and
trimmed, and year `y`; and a name with no digit at all is returned whole,
trimmed, with no year. -/
theorem parse_folder_name_rules :
    (parse_folder_name "Inception (2010)" = ("Inception", some "2010") ∧
     parse_folder_name "The.Matrix.1999" = ("The Matrix", some "1999") ∧
     parse_folder_name "Random Folder" = ("Random Folder", none)) ∧
    (∀ t w y : List Char, y.length = 4 → (∀ c ∈ y, c.isDigit = true) →
      (∀ c ∈ w, pyIsSpace c = true) → '\n' ∉ t →
      t.getLast?.all (fun c => !pyIsSpace c) = true →
      parseFolderChars (t ++ w ++ ('(' :: (y ++ [')']))) = (pyStrip t, some y)) ∧
    (∀ (t : List Char) (s : Char) (y : List Char), isSep s = true →
      y.length = 4 → (∀ c ∈ y, c.isDigit = true) → '\n' ∉ t →
      parseFolderChars (t ++ (s :: y)) =
        (pyStrip (t.map replaceSeps), some y)) ∧
    (∀ t y : List Char, y.length = 4 → (∀ c ∈ y, c.isDigit = true) →
      '\n' ∉ t → t.getLast?.all (fun c => !isSep c) = true →
      parseFolderChars (t ++ y) = (pyStrip (t.map replaceSeps), some y)) ∧
    (∀ cs : List Char, (∀ c ∈ cs, c.isDigit = false) →
      parseFolderChars cs = (pyStrip cs, none)) :=
  ⟨⟨by decide, by decide, by decide⟩,
   fun t w y hy hyd hw hnl hlast => parse_rule_paren t w y hy hyd hw hnl hlast,
   fun t s y hs hy hyd hnl => parse_rule_sep t s y hs hy hyd hnl,
   fun t y hy hyd hnl hlast => parse_rule_sep_none t y hy hyd hnl hlast,
   fun cs hd => parse_rule_none cs hd⟩

theorem parse_folder_name_rules_witness :
    parseFolderChars (['A'] ++ [' '] ++ ('(' :: ("2010".toList ++ [')']))) =
      (pyStrip ['A'], some "2010".toList) :=
  parse_folder_name_rules.2.1 ['A'] [' '] "2010".toList (by decide) (by decide)
    (by decide) (by decide) (by decide)

end PlexUpdater
